import Mathlib

/-!
Verification of the BKbox menu editor (`src/main.py`).

The program edits an HTML document holding two product sections
("hits" and "catalog").  Its core operations are a shallow embedding
of `MenuEditor`:

* the parsed HTML document is modelled by the inductive type `Node`
  (element tags with attributes and ordered children, and text nodes);
  the whole document is a `List Node` of top-level nodes, matching the
  BeautifulSoup root object, whose `find` searches descendants only;
* BeautifulSoup's `find(tag, class_=c)` is `findPathL` / `getAtL`
  (first match in document preorder), `find_all(..., recursive=False)`
  is `directItems`, and `get_text(strip=True)` is `get_text_strip`;
  a bs4 `Tag` is always truthy (`Tag.__bool__` returns `True`), so
  `if not tag` in the Python source is modelled as a match on `none`;
* the editor operations `extract_items`, `add_item`, `remove_selected`,
  `reload_soup`, `save_soup` and the FTP helpers are translated
  function by function; user-visible effects (dialogs, `sys.exit`,
  file writes, FTP protocol steps) are recorded explicitly.
-/

set_option autoImplicit false

namespace BkboxEditor

/-- A node of the parsed HTML tree: an element with a tag name, an
ordered attribute list and ordered children, or a text node. -/
inductive Node where
  | elem (tag : String) (attrs : List (String × String)) (children : List Node)
  | text (s : String)
deriving Inhabited

/-!
## Python string primitives

`str.strip()` and `str.splitlines()` are modelled at the character
level: `pyStrip` drops leading and trailing whitespace, `splitNl`
splits on the line feed (the terminator produced by the Tk text
widget), and `pySplitlines` additionally drops the trailing empty
line, as Python's `splitlines` does.
-/

/-- Drop leading and trailing whitespace characters. -/
def pyStripChars (cs : List Char) : List Char :=
  ((cs.dropWhile Char.isWhitespace).reverse.dropWhile Char.isWhitespace).reverse

/-- `str.strip()` with no argument. -/
def pyStrip (s : String) : String :=
  ⟨pyStripChars s.data⟩

/-- Split on separator characters, keeping empty segments (the output
list is always nonempty). -/
def splitPred (p : Char → Bool) : List Char → List (List Char)
  | [] => [[]]
  | c :: cs =>
    if p c then [] :: splitPred p cs
    else
      match splitPred p cs with
      | [] => [[c]]
      | l :: ls => (c :: l) :: ls

/-- Split on `'\n'`, keeping empty segments. -/
def splitNl : List Char → List (List Char) :=
  splitPred (fun c => c = '\n')

/-- `str.split()` with no argument: split on whitespace runs, no empty
segments. -/
def pySplitWs (s : String) : List String :=
  ((splitPred Char.isWhitespace s.data).filter (fun l => l ≠ [])).map String.mk

/-- `str.splitlines()` for LF-terminated text: like `splitNl` but a
trailing line terminator produces no final empty line. -/
def pySplitlinesChars (cs : List Char) : List (List Char) :=
  let ls := splitNl cs
  if ls.getLast? = some [] then ls.dropLast else ls

/-- The stripped non-blank lines of a character sequence. -/
def strippedLines (cs : List Char) : List (List Char) :=
  ((splitNl cs).map pyStripChars).filter (fun l => l ≠ [])

/-- The whitespace-separated class tokens of an attribute list, as bs4
stores the multi-valued `class` attribute (`value.split()`). -/
def classTokens (attrs : List (String × String)) : List String :=
  match attrs.lookup "class" with
  | some v => pySplitWs v
  | none => []

/-- Whether a node is an element with the given tag name carrying the
given class token, as matched by `find(tag, class_=cls)`. -/
def matchesTagClass (tag cls : String) : Node → Bool
  | .elem t a _ => t == tag && (classTokens a).contains cls
  | .text _ => false

mutual

/-- First node in this subtree (the node itself included) matching tag
and class, in document preorder. -/
def findSelfN (tag cls : String) : Node → Option Node
  | .text _ => none
  | .elem t a cs =>
    if matchesTagClass tag cls (.elem t a cs) then some (.elem t a cs)
    else findSelfL tag cls cs
termination_by structural n => n

/-- First node among these nodes and their descendants matching tag
and class, in document preorder: models `soup.find(t, class_=c)` where
the list holds the top-level nodes of the document. -/
def findSelfL (tag cls : String) : List Node → Option Node
  | [] => none
  | n :: rest =>
    match findSelfN tag cls n with
    | some m => some m
    | none => findSelfL tag cls rest
termination_by structural ns => ns

end

/-- First descendant of a node (the node itself excluded) matching tag
and class, in document preorder: models `tag.find(t, class_=c)`. -/
def findDescN (tag cls : String) : Node → Option Node
  | .text _ => none
  | .elem _ _ cs => findSelfL tag cls cs

mutual

/-- The text-node strings below a node, in document order. -/
def textsN : Node → List String
  | .text s => [s]
  | .elem _ _ cs => textsL cs
termination_by structural n => n

/-- The text-node strings below a list of nodes, in document order. -/
def textsL : List Node → List String
  | [] => []
  | n :: rest => textsN n ++ textsL rest
termination_by structural ns => ns

end

/-- `get_text(strip=True)`: each contained string stripped, empties
dropped, joined with the empty separator (so equal to joining the
stripped strings). -/
def get_text_strip (n : Node) : String :=
  String.join ((textsN n).map pyStrip)

/-- The raw text content of a node: its text-node strings joined. -/
def rawText (n : Node) : String :=
  String.join (textsN n)

mutual

/-- The raw text contents of the `li` elements below a node (or of the
node itself when it is an `li`), in document order: the description
entries of a product item. -/
def liTextsN : Node → List String
  | .text _ => []
  | .elem t _ cs => if t == "li" then [String.join (textsL cs)] else liTextsL cs
termination_by structural n => n

/-- The raw text contents of the `li` elements below a node list. -/
def liTextsL : List Node → List String
  | [] => []
  | n :: rest => liTextsN n ++ liTextsL rest
termination_by structural ns => ns

end

/-- The direct `div.product-item` children of a container element:
models `container.find_all("div", class_="product-item", recursive=False)`. -/
def directItems : Node → List Node
  | .elem _ _ cs => cs.filter (matchesTagClass "div" "product-item")
  | .text _ => []

/-- `MenuEditor.extract_items` restricted to the chosen container: the
`(name, element)` pairs of the direct product-item children, the name
being the stripped text of the first `p.product-name` descendant and
`"Unnamed"` when no such descendant exists (`name_tag` is `None`). -/
def extract_items (container : Node) : List (String × Node) :=
  (directItems container).map fun item_div =>
    (match findDescN "p" "product-name" item_div with
     | some name_tag => get_text_strip name_tag
     | none => "Unnamed",
     item_div)

/-- The product-item element built by `MenuEditor.add_item`: the image
wrapper (image, hidden description list, fixed-label toggle button)
followed by the name and price paragraphs. -/
def newItem (name price img_url : String) (description_lines : List String) : Node :=
  .elem "div" [("class", "product-item")]
    [ .elem "div" [("class", "product-image")]
        [ .elem "img" [("src", img_url), ("alt", name)] []
        , .elem "div" [("class", "product-description-modal")]
            [ .elem "ul" []
                (description_lines.map fun line => .elem "li" [] [.text line]) ]
        , .elem "button" [("class", "info-btn")] [.text "Состав"]
        ]
    , .elem "p" [("class", "product-name")] [.text name]
    , .elem "p" [("class", "product-price")] [.text price]
    ]

/-- `container.append(child)`: the child becomes the last child of the
container element (a no-op on a text node, which never occurs: the
containers are `div` tags). -/
def appendChild : Node → Node → Node
  | .elem t a cs, c => .elem t a (cs ++ [c])
  | .text s, _ => .text s

/-- `MenuEditor.add_item` restricted to the chosen container. -/
def add_item (container : Node) (name price img_url : String)
    (description_lines : List String) : Node :=
  appendChild container (newItem name price img_url description_lines)

/-- Remove from a child list the `(k+1)`-th child satisfying `p`,
leaving every other child in place: this is `items[index].extract()`
where `items` is the filtered direct-children list, since `extract`
removes that one element (by identity) from its parent's children. -/
def removeNthMatching (p : Node → Bool) : List Node → Nat → List Node
  | [], _ => []
  | c :: cs, k =>
    if p c then
      match k with
      | 0 => cs
      | k' + 1 => c :: removeNthMatching p cs k'
    else c :: removeNthMatching p cs k

/-- Detach the item at the given position from the container's direct
product-item children. -/
def removeItemAt : Node → Nat → Node
  | .elem t a cs, k => .elem t a (removeNthMatching (matchesTagClass "div" "product-item") cs k)
  | .text s, _ => .text s

/-- Outcome of `remove_selected`: the (possibly unchanged) container,
the dialog shown if any, and whether the process was terminated
(`remove_selected` never calls `sys.exit`, unlike `reload_soup`). -/
structure RemoveOutcome where
  container : Node
  dialog : Option String
  exited : Bool

/-- `MenuEditor.remove_selected` restricted to the chosen container.
`selection` is the listbox selection (`none` when nothing is selected),
`confirmed` the answer to the confirmation dialog.  An out-of-range
index shows an error dialog and leaves the container untouched. -/
def remove_selected (container : Node) (selection : Option Int)
    (confirmed : Bool) : RemoveOutcome :=
  match selection with
  | none => { container := container, dialog := some "Не выбрано", exited := false }
  | some index =>
    let items := directItems container
    if index < 0 ∨ (items.length : Int) ≤ index then
      { container := container, dialog := some "Выбранный индекс вне диапазона.", exited := false }
    else if confirmed then
      { container := removeItemAt container index.toNat, dialog := none, exited := false }
    else
      { container := container, dialog := none, exited := false }

/-- The description-line pipeline of `open_add_dialog.add_action`:
the raw text of the description box is stripped, split into lines,
each line stripped, and blank lines discarded
(`[line.strip() for line in description.splitlines() if line.strip()]`
applied to `desc_text.get("1.0", "end").strip()`). -/
def add_action_desc_lines (raw : String) : List String :=
  (((pySplitlinesChars (pyStripChars raw.data)).map pyStripChars).filter
    (fun line => line ≠ [])).map String.mk

/-- Modelled from the spec: "Description lines are derived by splitting
a multi-line input on line breaks and discarding blank lines" — the
surviving lines are kept verbatim, only blank (empty or whitespace-only)
lines are dropped. -/
def specSplitDiscardBlank (raw : String) : List String :=
  ((pySplitlinesChars raw.data).filter
    (fun line => pyStripChars line ≠ [])).map String.mk

/-!
## Document paths

The Python editor holds direct object references to the two container
tags found at load time (`self.hits_catalog`, `self.product_catalog`)
and mutates the tree through them.  In the functional embedding a
reference into the tree is a path: the list of child indices leading
from the top-level node list to the node.
-/

/-- A path from the document's top-level node list to a node: the head
indexes the top-level list, each later entry a child list. -/
abbrev Path := List Nat

/-- The node reached from a node by a path ([] is the node itself). -/
def getAtN : Path → Node → Option Node
  | [], n => some n
  | i :: rest, .elem _ _ cs =>
    match cs[i]? with
    | some c => getAtN rest c
    | none => none
  | _ :: _, .text _ => none

/-- The node reached from the top-level node list by a (nonempty) path. -/
def getAtL (p : Path) (ns : List Node) : Option Node :=
  match p with
  | [] => none
  | i :: rest =>
    match ns[i]? with
    | some c => getAtN rest c
    | none => none

/-- Replace the node at an index of a child list. -/
def modifyNthNode (f : Node → Node) : List Node → Nat → List Node
  | [], _ => []
  | c :: cs, 0 => f c :: cs
  | c :: cs, k + 1 => c :: modifyNthNode f cs k

/-- Apply `f` to the node reached by the path (unchanged if the path
leads nowhere). -/
def updateAtN (f : Node → Node) : Path → Node → Node
  | [], n => f n
  | i :: rest, .elem t a cs => .elem t a (modifyNthNode (updateAtN f rest) cs i)
  | _ :: _, .text s => .text s

/-- Apply `f` to the node reached by the path from the top-level list. -/
def updateAtL (f : Node → Node) (p : Path) (ns : List Node) : List Node :=
  match p with
  | [] => ns
  | i :: rest => modifyNthNode (updateAtN f rest) ns i

/-- Bump the leading index of a path. -/
def bumpHead : Path → Path
  | [] => []
  | i :: rest => (i + 1) :: rest

mutual

/-- Path (relative to the node, [] meaning the node itself) of the
first descendant-or-self matching tag and class, in document preorder. -/
def findPathN (tag cls : String) : Node → Option Path
  | .text _ => none
  | .elem t a cs =>
    if matchesTagClass tag cls (.elem t a cs) then some []
    else findPathL tag cls cs
termination_by structural n => n

/-- Path of the first node among these nodes and their descendants
matching tag and class, in document preorder. -/
def findPathL (tag cls : String) : List Node → Option Path
  | [] => none
  | n :: rest =>
    match findPathN tag cls n with
    | some p => some (0 :: p)
    | none =>
      match findPathL tag cls rest with
      | some p => some (bumpHead p)
      | none => none
termination_by structural ns => ns

end

mutual

/-- Whether some descendant-or-self is a `div` with the given class. -/
def containsDivN (cls : String) : Node → Bool
  | .text _ => false
  | .elem t a cs =>
    matchesTagClass "div" cls (.elem t a cs) || containsDivL cls cs
termination_by structural n => n

/-- Whether the document holds a `div` with the given class. -/
def containsDivL (cls : String) : List Node → Bool
  | [] => false
  | n :: rest => containsDivN cls n || containsDivL cls rest
termination_by structural ns => ns

end

/-!
## Loading, saving and effects

`reload_soup` reads and parses the file and locates the two section
containers, terminating the process (`sys.exit(1)`) when the file is
unreadable or a container is missing.  Reading and parsing are
delegated to the OS and to BeautifulSoup, so the file is modelled as
`Option (List Node)`: `none` for an unreadable file, `some doc` for
the parsed tree (the lenient `html.parser` parses any text).
-/

/-- The loaded editor state: the document and the paths of the two
container references held in `self.hits_catalog` / `self.product_catalog`. -/
structure EdState where
  soup : List Node
  hitsPath : Path
  catPath : Path

/-- Outcome of `reload_soup`: the new state if any, the error dialog
shown if any, and the `sys.exit` code if the process was terminated. -/
structure LoadOutcome where
  state : Option EdState
  dialog : Option String
  exitCode : Option Nat

/-- `MenuEditor.reload_soup`: on an unreadable file, show an error and
exit with code 1; otherwise parse and locate the `div.hits-catalog` and
`div.product-catalog` containers, showing an error and exiting with
code 1 when either is missing (a found bs4 `Tag` is always truthy, so
only `find` returning `None` fails the `if not ...` test). -/
def reload_soup (file : Option (List Node)) : LoadOutcome :=
  match file with
  | none =>
    { state := none, dialog := some "File not found", exitCode := some 1 }
  | some soup =>
    match findPathL "div" "hits-catalog" soup, findPathL "div" "product-catalog" soup with
    | some hp, some cp =>
      { state := some { soup := soup, hitsPath := hp, catPath := cp }
      , dialog := none, exitCode := none }
    | _, _ =>
      { state := none, dialog := some "Invalid template", exitCode := some 1 }

/-!
## Serialization

`save_soup` writes `str(self.soup)`.  Serialization is modelled at two
levels: the token stream of the tree (open tag, text, close tag, in
document order) and its rendering to text with bs4's minimal entity
substitution.  Re-parsing well-formed output is modelled by
`parseDocument` on the token stream.
-/

/-- A markup token: an opening tag with its attributes, a closing tag,
or a text run. -/
inductive Tok where
  | openTag (tag : String) (attrs : List (String × String))
  | closeTag (tag : String)
  | txt (s : String)
deriving DecidableEq

mutual

/-- The token stream of a node. -/
def toksN : Node → List Tok
  | .text s => [.txt s]
  | .elem t a cs => .openTag t a :: (toksL cs ++ [.closeTag t])
termination_by structural n => n

/-- The token stream of a document. -/
def toksL : List Node → List Tok
  | [] => []
  | n :: rest => toksN n ++ toksL rest
termination_by structural ns => ns

end

/-- bs4's minimal formatter on text: `&`, `<`, `>` become entities. -/
def escapeText (s : String) : String :=
  ((s.replace "&" "&amp;").replace "<" "&lt;").replace ">" "&gt;"

/-- Entity substitution inside a double-quoted attribute value. -/
def escapeAttrVal (s : String) : String :=
  (((s.replace "&" "&amp;").replace "<" "&lt;").replace ">" "&gt;").replace "\"" "&quot;"

/-- Render an attribute list, each value double-quoted. -/
def renderAttrs (attrs : List (String × String)) : String :=
  String.join (attrs.map fun kv => " " ++ kv.1 ++ "=\"" ++ escapeAttrVal kv.2 ++ "\"")

/-- Render one token to text. -/
def renderTok : Tok → String
  | .openTag t a => "<" ++ t ++ renderAttrs a ++ ">"
  | .closeTag t => "</" ++ t ++ ">"
  | .txt s => escapeText s

/-- The serialized document text written by `save_soup` (`str(self.soup)`). -/
def serializeDoc (ns : List Node) : String :=
  String.join ((toksL ns).map renderTok)

/-- Parse a sequence of nodes from a token stream, stopping at a
closing tag or at the end; returns the nodes and the remaining tokens.
Fuel-indexed; `none` on exhausted fuel or mismatched tags. -/
def parseMany : Nat → List Tok → Option (List Node × List Tok)
  | 0, _ => none
  | _ + 1, [] => some ([], [])
  | _ + 1, Tok.closeTag t :: rest => some ([], Tok.closeTag t :: rest)
  | fuel + 1, Tok.txt s :: rest =>
    match parseMany fuel rest with
    | some (ns, r) => some (Node.text s :: ns, r)
    | none => none
  | fuel + 1, Tok.openTag t a :: rest =>
    match parseMany fuel rest with
    | some (cs, Tok.closeTag t' :: r) =>
      if t' = t then
        match parseMany fuel r with
        | some (ns, r') => some (Node.elem t a cs :: ns, r')
        | none => none
      else none
    | _ => none

/-- Parse a whole well-formed token stream back into a document. -/
def parseDocument (ts : List Tok) : Option (List Node) :=
  match parseMany (ts.length + 1) ts with
  | some (ns, []) => some ns
  | _ => none

/-!
## FTP transfer and effect traces

`_ftp_connect` / `_ftp_download` / `_ftp_upload` and their callers are
modelled as trace-producing functions.  The outside world (which
protocol step succeeds) is an oracle `FtpWorld`; the produced trace
records, in order, the connection steps, file writes, dialogs shown
and process exits.
-/

/-- An observable effect of the editor. -/
inductive Ev where
  | ftpConnectEv (host : String)
  | ftpLoginEv (user : String)
  | ftpCwdEv (dir : String)
  | ftpRetrEv (file : String)
  | ftpStorEv (file : String)
  | ftpQuitEv
  | fileWriteEv (content : String)
  | dialogEv (title : String)
  | exitEv (code : Nat)
deriving DecidableEq

/-- The static FTP configuration fields of `MenuEditor.__init__`. -/
structure FtpConfig where
  ftp_host : Option String
  ftp_user : Option String
  ftp_pass : Option String
  remote_dir : Option String
  remote_file : Option String

/-- Oracle for the outcome of each FTP protocol step. -/
structure FtpWorld where
  connectOk : Bool
  loginOk : Bool
  cwdOk : String → Bool
  retrOk : Bool
  storOk : Bool

/-- Python truthiness of an optional string (`None` and `""` falsy). -/
def truthy : Option String → Bool
  | some s => s != ""
  | none => false

/-- `self.ftp_host and self.ftp_user and self.ftp_pass` as a Bool. -/
def ftpConfigured (cfg : FtpConfig) : Bool :=
  truthy cfg.ftp_host && truthy cfg.ftp_user && truthy cfg.ftp_pass

/-- The components of `remote_dir.split("/")`. -/
def dirParts (cfg : FtpConfig) : List String :=
  (splitPred (fun c => c = '/') (cfg.remote_dir.getD "").data).map String.mk

/-- The `ftp.cwd(part)` loop of `_ftp_connect`: empty parts skipped,
each other part attempted in order; a failing `cwd` raises, ending the
loop. -/
def cwdSteps (w : FtpWorld) : List String → List Ev × Bool
  | [] => ([], true)
  | part :: rest =>
    if part = "" then cwdSteps w rest
    else if w.cwdOk part then
      let (evs, ok) := cwdSteps w rest
      (Ev.ftpCwdEv part :: evs, ok)
    else ([Ev.ftpCwdEv part], false)

/-- `MenuEditor._ftp_connect`: raises (no events) on incomplete
credentials; otherwise connects, logs in, and changes into each
component of `remote_dir`.  A failure at any step raises out of the
function — without closing the connection — so the trace ends at the
failing step and the returned flag is `false`. -/
def ftp_connect (cfg : FtpConfig) (w : FtpWorld) : List Ev × Bool :=
  if !ftpConfigured cfg then ([], false)
  else
    let host := cfg.ftp_host.getD ""
    let user := cfg.ftp_user.getD ""
    if !w.connectOk then ([.ftpConnectEv host], false)
    else if !w.loginOk then ([.ftpConnectEv host, .ftpLoginEv user], false)
    else
      let pre : List Ev := [.ftpConnectEv host, .ftpLoginEv user]
      if truthy cfg.remote_dir then
        let (evs, ok) := cwdSteps w (dirParts cfg)
        (pre ++ evs, ok)
      else (pre, true)

/-- `MenuEditor._ftp_download`: raises on a missing remote file name;
otherwise connects (a connect-phase failure propagates, leaving the
connection open), then retrieves the file inside `try/finally`, so
`quit` runs whether or not the transfer succeeds. -/
def ftp_download (cfg : FtpConfig) (w : FtpWorld) : List Ev × Bool :=
  if !truthy cfg.remote_file then ([], false)
  else
    let (evs, ok) := ftp_connect cfg w
    if !ok then (evs, false)
    else (evs ++ [.ftpRetrEv (cfg.remote_file.getD ""), .ftpQuitEv], w.retrOk)

/-- `MenuEditor._ftp_upload`: same shape as the download with `STOR`
in place of `RETR`. -/
def ftp_upload (cfg : FtpConfig) (w : FtpWorld) : List Ev × Bool :=
  if !truthy cfg.remote_file then ([], false)
  else
    let (evs, ok) := ftp_connect cfg w
    if !ok then (evs, false)
    else (evs ++ [.ftpStorEv (cfg.remote_file.getD ""), .ftpQuitEv], w.storOk)

/-- The download phase of `MenuEditor.__init__`: `_ftp_download`
wrapped in `try/except` showing an error dialog on any failure. -/
def init_download (cfg : FtpConfig) (w : FtpWorld) : List Ev :=
  let (evs, ok) := ftp_download cfg w
  evs ++ (if ok then [] else [Ev.dialogEv "FTP download error"])

/-- `MenuEditor.save_soup`: write the serialized document to the local
file, then, when FTP is configured, upload it, showing an error dialog
on upload failure (the local write is not undone and the process is
not terminated). -/
def save_soup (soup : List Node) (cfg : FtpConfig) (w : FtpWorld) : List Ev :=
  Ev.fileWriteEv (serializeDoc soup) ::
    (if ftpConfigured cfg then
      let (evs, ok) := ftp_upload cfg w
      evs ++ (if ok then [] else [Ev.dialogEv "FTP upload error"])
    else [])

/-- Whether an effect is a local file write. -/
def isFileWriteEv : Ev → Bool
  | .fileWriteEv _ => true
  | _ => false

/-- Whether an effect is a process exit. -/
def isExitEv : Ev → Bool
  | .exitEv _ => true
  | _ => false

/-- Whether an effect is the opening of an FTP connection. -/
def isConnectEv : Ev → Bool
  | .ftpConnectEv _ => true
  | _ => false

/-- Whether an effect is an FTP protocol step. -/
def isFtpEv : Ev → Bool
  | .ftpConnectEv _ => true
  | .ftpLoginEv _ => true
  | .ftpCwdEv _ => true
  | .ftpRetrEv _ => true
  | .ftpStorEv _ => true
  | .ftpQuitEv => true
  | _ => false

/-!
## Section dispatch and document-level steps

The GUI passes the section name `"hits"` or `"catalog"`; each
operation selects `self.hits_catalog` when the name is exactly
`"hits"` and `self.product_catalog` otherwise.
-/

/-- The two container references held by the editor. -/
structure Containers where
  hits_catalog : Node
  product_catalog : Node

/-- `self.hits_catalog if section == "hits" else self.product_catalog`. -/
def containerFor (st : Containers) (sec : String) : Node :=
  if sec == "hits" then st.hits_catalog else st.product_catalog

/-- `extract_items(section)` at the editor level. -/
def extract_items_sec (st : Containers) (sec : String) : List (String × Node) :=
  extract_items (containerFor st sec)

/-- `add_item(section, ...)` at the editor level: the selected
container is mutated in place. -/
def add_item_sec (st : Containers) (sec name price img_url : String)
    (d : List String) : Containers :=
  if sec == "hits" then
    { st with hits_catalog := add_item st.hits_catalog name price img_url d }
  else
    { st with product_catalog := add_item st.product_catalog name price img_url d }

/-- `remove_selected(section)` at the editor level: the selected
container is mutated in place, the dialog if any returned alongside. -/
def remove_selected_sec (st : Containers) (sec : String) (selection : Option Int)
    (confirmed : Bool) : Containers × Option String :=
  if sec == "hits" then
    let o := remove_selected st.hits_catalog selection confirmed
    ({ st with hits_catalog := o.container }, o.dialog)
  else
    let o := remove_selected st.product_catalog selection confirmed
    ({ st with product_catalog := o.container }, o.dialog)

/-- `add_item` acting on the document through the stored container
reference, modelled as an update at the container's path. -/
def add_item_doc (st : EdState) (sec name price img_url : String)
    (d : List String) : EdState :=
  let path := if sec == "hits" then st.hitsPath else st.catPath
  { st with soup := updateAtL (fun c => add_item c name price img_url d) path st.soup }

/-- `remove_selected` acting on the document through the stored
container reference, modelled as an update at the container's path. -/
def remove_doc (st : EdState) (sec : String) (selection : Option Int)
    (confirmed : Bool) : EdState :=
  let path := if sec == "hits" then st.hitsPath else st.catPath
  { st with
    soup := updateAtL (fun c => (remove_selected c selection confirmed).container) path st.soup }

/-- Two paths lead into disjoint subtrees: they diverge at some index
before either ends (neither is a prefix of the other). -/
def pathsIndep : Path → Path → Bool
  | [], _ => false
  | _ :: _, [] => false
  | i :: p, j :: q => if i = j then pathsIndep p q else true

/-- The state invariant behind C10: the two stored container paths
lead into disjoint subtrees, and each still points at an element
carrying its section's marker class. -/
def GoodState (st : EdState) : Prop :=
  pathsIndep st.hitsPath st.catPath = true ∧
  (∃ x, getAtL st.hitsPath st.soup = some x ∧
    matchesTagClass "div" "hits-catalog" x = true) ∧
  (∃ y, getAtL st.catPath st.soup = some y ∧
    matchesTagClass "div" "product-catalog" y = true)

/-- Editor states reachable from a successful load whose two container
references landed in disjoint subtrees, by any sequence of add and
remove operations. -/
inductive ReachableDisjoint : EdState → Prop where
  | load (doc : List Node) (st : EdState) :
      (reload_soup (some doc)).state = some st →
      pathsIndep st.hitsPath st.catPath = true →
      ReachableDisjoint st
  | add (st : EdState) (sec name price img_url : String) (d : List String) :
      ReachableDisjoint st →
      ReachableDisjoint (add_item_doc st sec name price img_url d)
  | remove (st : EdState) (sec : String) (selection : Option Int) (confirmed : Bool) :
      ReachableDisjoint st →
      ReachableDisjoint (remove_doc st sec selection confirmed)

/-!
## Concrete fixtures

Small documents used to instantiate the theorems at concrete inputs.
-/

/-- An empty hits container. -/
def sampleHits : Node := .elem "div" [("class", "hits-catalog")] []

/-- A catalog container holding one product. -/
def sampleCat : Node :=
  .elem "div" [("class", "product-catalog")] [newItem "Burger" "199 ₽" "img/burger.jpg" ["Bun"]]

/-- A well-formed document holding both sections. -/
def sampleDoc : List Node :=
  [.elem "html" [] [.elem "body" [] [sampleHits, sampleCat]]]

/-- A container with a stray text child and three products. -/
def sampleFull : Node :=
  .elem "div" [("class", "product-catalog")]
    [ .text "x"
    , newItem "A" "1 ₽" "a.jpg" ["a1"]
    , newItem "B" "2 ₽" "b.jpg" []
    , newItem "C" "3 ₽" "c.jpg" ["c1", "c2"]
    ]

/-- A pair of containers for section-dispatch statements. -/
def sampleContainers : Containers := { hits_catalog := sampleHits, product_catalog := sampleCat }

/-- A document in which the catalog container is itself a direct
product-item child of the hits container. -/
def nestedDoc : List Node :=
  [.elem "html" []
    [.elem "div" [("class", "hits-catalog")]
      [.elem "div" [("class", "product-item product-catalog")] []]]]

/-- A complete FTP configuration. -/
def sampleCfg : FtpConfig :=
  { ftp_host := some "31.31.196.76", ftp_user := some "u3275410"
  , ftp_pass := some "secret", remote_dir := some "www/bkbox.shop"
  , remote_file := some "page81046126.html" }

/-- A world in which every FTP step succeeds except the upload. -/
def storFailWorld : FtpWorld :=
  { connectOk := true, loginOk := true, cwdOk := fun _ => true
  , retrOk := true, storOk := false }

/-- A world in which the FTP login fails. -/
def loginFailWorld : FtpWorld :=
  { connectOk := true, loginOk := false, cwdOk := fun _ => true
  , retrOk := true, storOk := true }

/-- A world in which every FTP step succeeds except the download. -/
def retrFailWorld : FtpWorld :=
  { connectOk := true, loginOk := true, cwdOk := fun _ => true
  , retrOk := false, storOk := true }

end BkboxEditor

namespace BkboxEditor

/-!
## Theorems
-/

theorem filter_removeNthMatching (p : Node → Bool) (l : List Node) (k : Nat) :
    (removeNthMatching p l k).filter p = (l.filter p).eraseIdx k := by
  induction l generalizing k with
  | nil => simp [removeNthMatching]
  | cons c cs ih =>
    by_cases hc : p c
    · cases k with
      | zero => simp [removeNthMatching, hc, List.filter_cons]
      | succ k' => simp [removeNthMatching, hc, List.filter_cons, ih]
    · simp [removeNthMatching, hc, List.filter_cons, ih]

theorem filter_not_removeNthMatching (p : Node → Bool) (l : List Node) (k : Nat) :
    (removeNthMatching p l k).filter (fun c => !(p c)) = l.filter (fun c => !(p c)) := by
  induction l generalizing k with
  | nil => simp [removeNthMatching]
  | cons c cs ih =>
    by_cases hc : p c
    · cases k with
      | zero => simp [removeNthMatching, hc, List.filter_cons]
      | succ k' => simp [removeNthMatching, hc, List.filter_cons, ih]
    · simp [removeNthMatching, hc, List.filter_cons, ih]

/-- C2: on a section container, removing at an in-range index `i`
(with the deletion confirmed) detaches exactly the item at position
`i`: the direct item list becomes its `eraseIdx i`, so the count drops
by one, earlier items keep their positions and later items shift down
by one; the non-item children are untouched.  An out-of-range index
(negative or at least the item count) leaves the container completely
unchanged, shows an error dialog, and does not terminate the process. -/
theorem remove_selected_spec (t : String) (a : List (String × String)) (cs : List Node)
    (i : Int) (confirmed : Bool) :
    (0 ≤ i → i < ((directItems (Node.elem t a cs)).length : Int) →
      remove_selected (Node.elem t a cs) (some i) true
        = { container := removeItemAt (Node.elem t a cs) i.toNat
          , dialog := none, exited := false } ∧
      directItems (removeItemAt (Node.elem t a cs) i.toNat)
        = (directItems (Node.elem t a cs)).eraseIdx i.toNat ∧
      (directItems (removeItemAt (Node.elem t a cs) i.toNat)).length + 1
        = (directItems (Node.elem t a cs)).length ∧
      (∀ j : Nat, j < i.toNat →
        (directItems (removeItemAt (Node.elem t a cs) i.toNat))[j]?
          = (directItems (Node.elem t a cs))[j]?) ∧
      (∀ j : Nat, i.toNat ≤ j →
        (directItems (removeItemAt (Node.elem t a cs) i.toNat))[j]?
          = (directItems (Node.elem t a cs))[j + 1]?) ∧
      cs.filter (fun c => !(matchesTagClass "div" "product-item" c))
        = (match removeItemAt (Node.elem t a cs) i.toNat with
           | .elem _ _ cs' => cs'.filter (fun c => !(matchesTagClass "div" "product-item" c))
           | .text _ => [])) ∧
    ((i < 0 ∨ ((directItems (Node.elem t a cs)).length : Int) ≤ i) →
      remove_selected (Node.elem t a cs) (some i) confirmed
        = { container := Node.elem t a cs
          , dialog := some "Выбранный индекс вне диапазона.", exited := false }) := by
  constructor
  · intro h0 hlt
    have hcond : ¬(i < 0 ∨ ((directItems (Node.elem t a cs)).length : Int) ≤ i) := by omega
    have htn : i.toNat < (directItems (Node.elem t a cs)).length := by omega
    have herase : directItems (removeItemAt (Node.elem t a cs) i.toNat)
        = (directItems (Node.elem t a cs)).eraseIdx i.toNat := by
      simp only [removeItemAt, directItems]
      exact filter_removeNthMatching _ cs i.toNat
    refine ⟨?_, herase, ?_, ?_, ?_, ?_⟩
    · simp [remove_selected, hcond]
    · rw [herase, List.length_eraseIdx_of_lt htn]
      omega
    · intro j hj
      rw [herase, List.getElem?_eraseIdx_of_lt _ _ _ hj]
    · intro j hj
      rw [herase, List.getElem?_eraseIdx_of_ge _ _ _ hj]
    · simp only [removeItemAt]
      exact (filter_not_removeNthMatching _ cs i.toNat).symm
  · intro h
    simp [remove_selected, h]

/-- Witness for C2: the container `sampleFull` has items `A`, `B`, `C`;
removing index 1 yields items `A`, `C`, and removing index 5 is
rejected with an error dialog. -/
theorem remove_selected_spec_witness :
    (remove_selected sampleFull (some 1) true
      = { container := removeItemAt sampleFull 1, dialog := none, exited := false } ∧
     directItems (removeItemAt sampleFull 1) = (directItems sampleFull).eraseIdx 1) ∧
    remove_selected sampleFull (some 5) true
      = { container := sampleFull
        , dialog := some "Выбранный индекс вне диапазона.", exited := false } := by
  have h := remove_selected_spec "div" [("class", "product-catalog")]
    [ Node.text "x"
    , newItem "A" "1 ₽" "a.jpg" ["a1"]
    , newItem "B" "2 ₽" "b.jpg" []
    , newItem "C" "3 ₽" "c.jpg" ["c1", "c2"]
    ] 1 true
  have h5 := remove_selected_spec "div" [("class", "product-catalog")]
    [ Node.text "x"
    , newItem "A" "1 ₽" "a.jpg" ["a1"]
    , newItem "B" "2 ₽" "b.jpg" []
    , newItem "C" "3 ₽" "c.jpg" ["c1", "c2"]
    ] 5 true
  have h1 := h.1 (by decide) (by decide)
  exact ⟨⟨h1.1, h1.2.1⟩, h5.2 (by decide)⟩

theorem matchesTagClass_elem (tag cls t : String) (a : List (String × String)) (cs : List Node) :
    matchesTagClass tag cls (.elem t a cs) = (t == tag && (classTokens a).contains cls) := rfl

theorem String.join_singleton (s : String) : String.join [s] = s := rfl

theorem findSelfL_liNodes (tag cls : String) (d : List String) :
    findSelfL tag cls (d.map fun line => Node.elem "li" [] [Node.text line]) = none := by
  induction d with
  | nil => rfl
  | cons x xs ih =>
    simp [findSelfL, findSelfN, matchesTagClass_elem, classTokens, ih]

theorem liTextsL_liNodes (d : List String) :
    liTextsL (d.map fun line => Node.elem "li" [] [Node.text line]) = d := by
  induction d with
  | nil => rfl
  | cons x xs ih =>
    simp [liTextsL, liTextsN, textsL, textsN, String.join_singleton, ih]

theorem findDescN_name_newItem (n p i : String) (d : List String) :
    findDescN "p" "product-name" (newItem n p i d)
      = some (.elem "p" [("class", "product-name")] [.text n]) := by
  have hname : "product-name" ∈ classTokens [("class", "product-name")] := by decide
  simp [newItem, findDescN, findSelfL, findSelfN, matchesTagClass_elem,
    findSelfL_liNodes, hname]

theorem findDescN_price_newItem (n p i : String) (d : List String) :
    findDescN "p" "product-price" (newItem n p i d)
      = some (.elem "p" [("class", "product-price")] [.text p]) := by
  have hname : "product-price" ∉ classTokens [("class", "product-name")] := by decide
  have hprice : "product-price" ∈ classTokens [("class", "product-price")] := by decide
  simp [newItem, findDescN, findSelfL, findSelfN, matchesTagClass_elem,
    findSelfL_liNodes, hname, hprice]

theorem liTextsN_newItem (n p i : String) (d : List String) :
    liTextsN (newItem n p i d) = d := by
  simp [newItem, liTextsN, liTextsL, liTextsL_liNodes]

theorem isItem_newItem (n p i : String) (d : List String) :
    matchesTagClass "div" "product-item" (newItem n p i d) = true := by
  rw [newItem, matchesTagClass_elem]
  decide

theorem extract_items_add (t : String) (a : List (String × String)) (cs : List Node)
    (n p i : String) (d : List String) :
    extract_items (add_item (.elem t a cs) n p i d)
      = extract_items (.elem t a cs) ++ [(pyStrip n, newItem n p i d)] := by
  simp [extract_items, add_item, appendChild, directItems, List.filter_append,
    isItem_newItem, findDescN_name_newItem, get_text_strip, textsN, textsL,
    String.join_singleton]

/-- Counterexample to C1 as stated: `add_item` with the non-empty name
`" Burger "` followed by `extract_items` yields a last entry whose name
is the stripped string `"Burger"`, not the supplied name. -/
theorem add_then_extract_cx :
    ((extract_items (add_item sampleHits " Burger " "199 ₽" "img/b.jpg" ["Bun"])).map
        Prod.fst).getLast? = some "Burger" ∧
      "Burger" ≠ " Burger " := ⟨by decide, by decide⟩

/-- C1 (amended): for either section and any inputs, adding an item and
then listing that section yields the new item as the last entry; its
listed name is the supplied name stripped of surrounding whitespace
(hence exactly the supplied name whenever the name carries none), and
the produced element contains exactly the supplied price string (as the
raw text of its `p.product-price` sub-element) and exactly the supplied
description lines as its `li` entries, in order. -/
theorem add_then_extract_spec (th tc : String)
    (ah ac : List (String × String)) (csh csc : List Node) (sec : String)
    (hsec : sec = "hits" ∨ sec = "catalog")
    (name price img_url : String) (d : List String) :
    extract_items_sec
        (add_item_sec ⟨.elem th ah csh, .elem tc ac csc⟩ sec name price img_url d) sec
      = extract_items_sec ⟨.elem th ah csh, .elem tc ac csc⟩ sec
          ++ [(pyStrip name, newItem name price img_url d)] ∧
    (pyStrip name = name → (pyStrip name, newItem name price img_url d).1 = name) ∧
    findDescN "p" "product-price" (newItem name price img_url d)
      = some (.elem "p" [("class", "product-price")] [.text price]) ∧
    rawText (.elem "p" [("class", "product-price")] [.text price]) = price ∧
    liTextsN (newItem name price img_url d) = d := by
  refine ⟨?_, fun h => h, findDescN_price_newItem _ _ _ _, rfl, liTextsN_newItem _ _ _ _⟩
  rcases hsec with h | h <;>
    simp [h, extract_items_sec, add_item_sec, containerFor, extract_items_add]

/-- Witness for C1: adding `"Combo"` to the sample hits section lists
it last with exactly that name, price and description lines. -/
theorem add_then_extract_spec_witness :
    extract_items_sec
        (add_item_sec ⟨sampleHits, sampleCat⟩ "hits" "Combo" "299 ₽" "img/combo.jpg"
          ["Bun", "Patty"]) "hits"
      = extract_items_sec ⟨sampleHits, sampleCat⟩ "hits"
          ++ [(pyStrip "Combo", newItem "Combo" "299 ₽" "img/combo.jpg" ["Bun", "Patty"])] ∧
    liTextsN (newItem "Combo" "299 ₽" "img/combo.jpg" ["Bun", "Patty"]) = ["Bun", "Patty"] := by
  have h := add_then_extract_spec "div" "div" [("class", "hits-catalog")]
    [("class", "product-catalog")] []
    [newItem "Burger" "199 ₽" "img/burger.jpg" ["Bun"]] "hits" (Or.inl rfl)
    "Combo" "299 ₽" "img/combo.jpg" ["Bun", "Patty"]
  exact ⟨h.1, h.2.2.2.2⟩

/-!
### Line-splitting lemmas for the description pipeline
-/

theorem splitPred_ne_nil (p : Char → Bool) (cs : List Char) : splitPred p cs ≠ [] := by
  induction cs with
  | nil => simp [splitPred]
  | cons c cs ih =>
    by_cases hc : p c = true
    · simp [splitPred, hc]
    · cases h : splitPred p cs with
      | nil => simp [splitPred, hc, h]
      | cons l ls => simp [splitPred, hc, h]

theorem splitPred_cons_of_pos (p : Char → Bool) (c : Char) (cs : List Char)
    (h : p c = true) : splitPred p (c :: cs) = [] :: splitPred p cs := by
  simp [splitPred, h]

theorem splitPred_cons_of_neg (p : Char → Bool) (c : Char) (cs : List Char)
    (h : p c = false) :
    splitPred p (c :: cs) = (c :: (splitPred p cs).headD []) :: (splitPred p cs).tail := by
  cases hs : splitPred p cs with
  | nil => exact absurd hs (splitPred_ne_nil p cs)
  | cons l ls => simp [splitPred, h, hs]

theorem dropLast_append_getLastD {α : Type} (l : List α) (d : α) (h : l ≠ []) :
    l.dropLast ++ [l.getLastD d] = l := by
  induction l generalizing d with
  | nil => exact absurd rfl h
  | cons a as ih =>
    cases as with
    | nil => rfl
    | cons b bs =>
      rw [List.dropLast_cons₂, List.getLastD_cons, List.cons_append,
        ih a (by simp)]

theorem splitPred_append_pos (p : Char → Bool) (xs : List Char) (c : Char)
    (h : p c = true) : splitPred p (xs ++ [c]) = splitPred p xs ++ [[]] := by
  induction xs with
  | nil => simp [splitPred, h]
  | cons x xs ih =>
    by_cases hx : p x = true
    · rw [List.cons_append, splitPred_cons_of_pos _ _ _ hx, ih,
        splitPred_cons_of_pos _ _ _ hx, List.cons_append]
    · have hx' : p x = false := by simpa using hx
      rw [List.cons_append, splitPred_cons_of_neg _ _ _ hx', ih,
        splitPred_cons_of_neg _ _ _ hx']
      cases hs : splitPred p xs with
      | nil => exact absurd hs (splitPred_ne_nil p xs)
      | cons l ls => simp

theorem splitPred_append_neg (p : Char → Bool) (xs : List Char) (c : Char)
    (h : p c = false) :
    splitPred p (xs ++ [c])
      = (splitPred p xs).dropLast ++ [(splitPred p xs).getLastD [] ++ [c]] := by
  induction xs with
  | nil => simp [splitPred, h]
  | cons x xs ih =>
    by_cases hx : p x = true
    · rw [List.cons_append, splitPred_cons_of_pos _ _ _ hx, ih,
        splitPred_cons_of_pos _ _ _ hx]
      cases hs : splitPred p xs with
      | nil => exact absurd hs (splitPred_ne_nil p xs)
      | cons l ls => simp [List.getLastD_cons]
    · have hx' : p x = false := by simpa using hx
      rw [List.cons_append, splitPred_cons_of_neg _ _ _ hx', ih,
        splitPred_cons_of_neg _ _ _ hx']
      cases hs : splitPred p xs with
      | nil => exact absurd hs (splitPred_ne_nil p xs)
      | cons l ls =>
        cases ls with
        | nil => simp
        | cons m ms => simp [List.getLastD_cons]

theorem pyStripChars_cons_ws (c : Char) (l : List Char) (h : c.isWhitespace = true) :
    pyStripChars (c :: l) = pyStripChars l := by
  simp [pyStripChars, List.dropWhile_cons_of_pos h]

theorem pyStripChars_all_ws (l : List Char) (h : ∀ c ∈ l, c.isWhitespace = true) :
    pyStripChars l = [] := by
  have hd : List.dropWhile Char.isWhitespace l = [] := by
    rw [List.dropWhile_eq_nil_iff]
    exact h
  simp [pyStripChars, hd]

theorem pyStripChars_append_ws (l : List Char) (c : Char) (h : c.isWhitespace = true) :
    pyStripChars (l ++ [c]) = pyStripChars l := by
  unfold pyStripChars
  rw [List.dropWhile_append]
  by_cases hl : (List.dropWhile Char.isWhitespace l).isEmpty
  · have hl' : List.dropWhile Char.isWhitespace l = [] := by
      simpa [List.isEmpty_iff] using hl
    simp [hl, hl', List.dropWhile_cons_of_pos h]
  · simp only [hl, Bool.false_eq_true, if_false, List.reverse_append,
      List.reverse_cons, List.reverse_nil, List.nil_append, List.singleton_append,
      List.dropWhile_cons_of_pos h]

theorem strippedLines_cons_ws (c : Char) (cs : List Char) (h : c.isWhitespace = true) :
    strippedLines (c :: cs) = strippedLines cs := by
  by_cases hn : c = '\n'
  · subst hn
    rw [strippedLines, splitNl, splitPred_cons_of_pos _ _ _ (by simp), strippedLines, splitNl]
    simp [pyStripChars]
  · rw [strippedLines, splitNl, splitPred_cons_of_neg _ _ _ (by simp [hn]),
      strippedLines, splitNl]
    cases hs : splitPred (fun c => decide (c = '\n')) cs with
    | nil => exact absurd hs (splitPred_ne_nil _ cs)
    | cons l ls =>
      simp only [List.headD_cons, List.tail_cons, List.map_cons, List.filter_cons,
        pyStripChars_cons_ws c l h]

theorem strippedLines_ws_append (ws cs : List Char) (h : ∀ c ∈ ws, c.isWhitespace = true) :
    strippedLines (ws ++ cs) = strippedLines cs := by
  induction ws with
  | nil => rfl
  | cons w ws ih =>
    rw [List.cons_append, strippedLines_cons_ws w _ (h w (by simp)),
      ih (fun c hc => h c (by simp [hc]))]

theorem strippedLines_append_ws_char (cs : List Char) (c : Char)
    (h : c.isWhitespace = true) : strippedLines (cs ++ [c]) = strippedLines cs := by
  by_cases hn : c = '\n'
  · subst hn
    rw [strippedLines, splitNl, splitPred_append_pos _ _ _ (by simp), strippedLines, splitNl]
    simp [pyStripChars]
  · rw [strippedLines, splitNl, splitPred_append_neg _ _ _ (by simp [hn]),
      strippedLines, splitNl]
    have hne := splitPred_ne_nil (fun c => decide (c = '\n')) cs
    conv_rhs =>
      rw [← dropLast_append_getLastD (splitPred (fun c => decide (c = '\n')) cs) [] hne]
    simp only [List.map_append, List.filter_append, List.map_cons, List.map_nil,
      List.filter_cons, List.filter_nil,
      pyStripChars_append_ws _ c h]

theorem strippedLines_append_ws (cs ws : List Char) (h : ∀ c ∈ ws, c.isWhitespace = true) :
    strippedLines (cs ++ ws) = strippedLines cs := by
  induction ws using List.reverseRecOn with
  | nil => simp
  | append_singleton ws c ih =>
    rw [← List.append_assoc, strippedLines_append_ws_char _ c (h c (by simp)),
      ih (fun x hx => h x (by simp [hx]))]

theorem strippedLines_pyStripChars (cs : List Char) :
    strippedLines (pyStripChars cs) = strippedLines cs := by
  conv_rhs => rw [← List.takeWhile_append_dropWhile (p := Char.isWhitespace) (l := cs)]
  rw [strippedLines_ws_append _ _ (fun c hc => List.mem_takeWhile_imp hc)]
  have hD : List.dropWhile Char.isWhitespace cs
      = pyStripChars cs
        ++ (List.takeWhile Char.isWhitespace
            (List.dropWhile Char.isWhitespace cs).reverse).reverse := by
    rw [pyStripChars]
    conv_lhs => rw [← List.reverse_reverse (List.dropWhile Char.isWhitespace cs),
      ← List.takeWhile_append_dropWhile (p := Char.isWhitespace)
        (l := (List.dropWhile Char.isWhitespace cs).reverse)]
    rw [List.reverse_append]
  rw [hD, strippedLines_append_ws _ _
    (fun c hc => List.mem_takeWhile_imp (List.mem_reverse.mp hc))]

theorem strippedLines_pySplitlines (cs : List Char) :
    ((pySplitlinesChars cs).map pyStripChars).filter (fun l => l ≠ [])
      = strippedLines cs := by
  rw [pySplitlinesChars, strippedLines]
  by_cases h : (splitNl cs).getLast? = some []
  · simp only [h, if_pos rfl]
    conv_rhs => rw [← List.dropLast_append_getLast? [] h]
    simp [pyStripChars]
  · simp [h]

theorem map_strip_filter (lines : List (List Char)) :
    (lines.filter (fun line => pyStripChars line ≠ [])).map pyStripChars
      = (lines.map pyStripChars).filter (fun l => l ≠ []) := by
  induction lines with
  | nil => rfl
  | cons l ls ih =>
    by_cases h : pyStripChars l = []
    · simpa [h] using ih
    · simpa [h] using ih

/-- Counterexample to C3 as stated: for the input `" Bun \nPatty"` the
stored description lines are `["Bun", "Patty"]` — each surviving line
is stripped — while splitting on line breaks and discarding blank
lines alone would keep `" Bun "` verbatim. -/
theorem desc_lines_cx :
    add_action_desc_lines " Bun \nPatty" = ["Bun", "Patty"] ∧
    specSplitDiscardBlank " Bun \nPatty" = [" Bun ", "Patty"] ∧
    liTextsN (newItem "N" "P" "I" (add_action_desc_lines " Bun \nPatty"))
      = ["Bun", "Patty"] ∧
    (["Bun", "Patty"] : List String) ≠ [" Bun ", "Patty"] :=
  ⟨by decide, by decide, by decide, by decide⟩

/-- C3 (amended): the stored item's description lines are exactly the
lines obtained by splitting the input on line breaks, discarding blank
(empty or whitespace-only) lines, and stripping each surviving line of
its surrounding whitespace, in original relative order: the stored
lines are the spec's split-and-discard-blank lines, each stripped. -/
theorem desc_lines_spec (raw n p i : String) :
    liTextsN (newItem n p i (add_action_desc_lines raw)) = add_action_desc_lines raw ∧
    add_action_desc_lines raw = (specSplitDiscardBlank raw).map pyStrip := by
  refine ⟨liTextsN_newItem _ _ _ _, ?_⟩
  rw [add_action_desc_lines, specSplitDiscardBlank,
    strippedLines_pySplitlines (pyStripChars raw.data), strippedLines_pyStripChars,
    List.map_map]
  have hcomp : (pyStrip ∘ String.mk) = (String.mk ∘ pyStripChars) := rfl
  rw [hcomp, ← List.map_map, map_strip_filter, strippedLines_pySplitlines]

/-- Witness for C3: on the blank-ridden input `"  Bun \n\n \nPatty"`
the stored description lines are `["Bun", "Patty"]`, the stripped
non-blank split lines, in order. -/
theorem desc_lines_spec_witness :
    liTextsN (newItem "Combo" "299 ₽" "img/combo.jpg"
        (add_action_desc_lines "  Bun \n\n \nPatty"))
      = add_action_desc_lines "  Bun \n\n \nPatty" ∧
    add_action_desc_lines "  Bun \n\n \nPatty"
      = (specSplitDiscardBlank "  Bun \n\n \nPatty").map pyStrip :=
  desc_lines_spec "  Bun \n\n \nPatty" "Combo" "299 ₽" "img/combo.jpg"

/-- An item whose name sub-element is present but has empty text. -/
def emptyNameItem : Node :=
  .elem "div" [("class", "product-item")] [.elem "p" [("class", "product-name")] []]

/-- A hits container holding only `emptyNameItem`. -/
def emptyNameContainer : Node :=
  .elem "div" [("class", "hits-catalog")] [emptyNameItem]

/-- Counterexample to C5 as stated: for an item whose `p.product-name`
sub-element is present but has empty text content, the listing returns
the empty string, not the `"Unnamed"` placeholder. -/
theorem name_fallback_cx :
    findDescN "p" "product-name" emptyNameItem
      = some (.elem "p" [("class", "product-name")] []) ∧
    get_text_strip (.elem "p" [("class", "product-name")] []) = "" ∧
    (extract_items emptyNameContainer).map Prod.fst = [""] ∧
    ("" : String) ≠ "Unnamed" :=
  ⟨rfl, rfl, by decide, by decide⟩

/-- C5 (amended): the name returned by the listing operation for the
`k`-th direct item-child is the stripped text content of its first
`p.product-name` sub-element whenever that sub-element is present —
including the empty string when its text content is empty — and is the
placeholder `"Unnamed"` exactly when the sub-element is absent. -/
theorem name_resolution_spec (t : String) (a : List (String × String)) (cs : List Node)
    (k : Nat) (item : Node)
    (hk : (directItems (Node.elem t a cs))[k]? = some item) :
    ((extract_items (Node.elem t a cs))[k]?).map Prod.fst
      = some (match findDescN "p" "product-name" item with
              | some name_tag => get_text_strip name_tag
              | none => "Unnamed") ∧
    (findDescN "p" "product-name" item = none →
      ((extract_items (Node.elem t a cs))[k]?).map Prod.fst = some "Unnamed") ∧
    (∀ name_tag, findDescN "p" "product-name" item = some name_tag →
      ((extract_items (Node.elem t a cs))[k]?).map Prod.fst
        = some (get_text_strip name_tag)) := by
  have hx : (extract_items (Node.elem t a cs))[k]?
      = some (match findDescN "p" "product-name" item with
              | some name_tag => get_text_strip name_tag
              | none => "Unnamed", item) := by
    simp only [extract_items, List.getElem?_map, hk, Option.map_some']
  exact ⟨by rw [hx]; rfl, fun h => by rw [hx]; simp [h], fun nt h => by rw [hx]; simp [h]⟩

/-- Witness for C5: on `sampleFull`, the first listed item resolves to
the name `"A"` through its present name sub-element. -/
theorem name_resolution_spec_witness :
    ((extract_items sampleFull)[0]?).map Prod.fst = some "A" := by
  have h := (name_resolution_spec "div" [("class", "product-catalog")]
    [ Node.text "x"
    , newItem "A" "1 ₽" "a.jpg" ["a1"]
    , newItem "B" "2 ₽" "b.jpg" []
    , newItem "C" "3 ₽" "c.jpg" ["c1", "c2"]
    ] 0 (newItem "A" "1 ₽" "a.jpg" ["a1"]) rfl).1
  rw [show ((extract_items sampleFull)[0]?).map Prod.fst
      = ((extract_items (Node.elem "div" [("class", "product-catalog")]
        [ Node.text "x"
        , newItem "A" "1 ₽" "a.jpg" ["a1"]
        , newItem "B" "2 ₽" "b.jpg" []
        , newItem "C" "3 ₽" "c.jpg" ["c1", "c2"]
        ]))[0]?).map Prod.fst from rfl, h]
  decide

/-- C9: every section string other than `"hits"` — including
`"catalog"`, misspellings and the empty string — is silently
dispatched to the catalog container by the listing, add and remove
operations, which coincide with the same call made with `"catalog"`;
no section string is rejected. -/
theorem section_dispatch_spec (st : Containers) (sec : String) (h : sec ≠ "hits")
    (name price img_url : String) (d : List String)
    (selection : Option Int) (confirmed : Bool) :
    extract_items_sec st sec = extract_items st.product_catalog ∧
    add_item_sec st sec name price img_url d
      = { st with product_catalog := add_item st.product_catalog name price img_url d } ∧
    remove_selected_sec st sec selection confirmed
      = ({ st with
            product_catalog := (remove_selected st.product_catalog selection confirmed).container }
        , (remove_selected st.product_catalog selection confirmed).dialog) ∧
    extract_items_sec st sec = extract_items_sec st "catalog" ∧
    add_item_sec st sec name price img_url d = add_item_sec st "catalog" name price img_url d ∧
    remove_selected_sec st sec selection confirmed
      = remove_selected_sec st "catalog" selection confirmed := by
  refine ⟨?_, ?_, ?_, ?_, ?_, ?_⟩ <;>
    simp [extract_items_sec, add_item_sec, remove_selected_sec, containerFor, h]

/-- Witness for C9: the misspelled section `"katalog"` behaves exactly
like `"catalog"` on the sample containers. -/
theorem section_dispatch_spec_witness :
    extract_items_sec sampleContainers "katalog" = extract_items sampleContainers.product_catalog ∧
    add_item_sec sampleContainers "katalog" "N" "P" "I" ["d"]
      = { sampleContainers with
          product_catalog := add_item sampleContainers.product_catalog "N" "P" "I" ["d"] } ∧
    extract_items_sec sampleContainers "katalog" = extract_items_sec sampleContainers "catalog" := by
  have h := section_dispatch_spec sampleContainers "katalog" (by decide)
    "N" "P" "I" ["d"] (some 0) true
  exact ⟨h.1, h.2.1, h.2.2.2.1⟩

/-!
### Loading (C4)
-/

mutual

theorem findPathN_none_iff (cls : String) (n : Node) :
    findPathN "div" cls n = none ↔ containsDivN cls n = false := by
  cases n with
  | text s => simp [findPathN, containsDivN]
  | elem t a cs =>
    by_cases hm : matchesTagClass "div" cls (Node.elem t a cs) = true
    · simp [findPathN, containsDivN, hm]
    · have hm' : matchesTagClass "div" cls (Node.elem t a cs) = false := by
        simpa using hm
      simp [findPathN, containsDivN, hm', findPathL_none_iff cls cs]
termination_by structural n

theorem findPathL_none_iff (cls : String) (ns : List Node) :
    findPathL "div" cls ns = none ↔ containsDivL cls ns = false := by
  cases ns with
  | nil => simp [findPathL, containsDivL]
  | cons n rest =>
    cases hn : findPathN "div" cls n with
    | some p =>
      have hcn : containsDivN cls n = true := by
        cases hcv : containsDivN cls n with
        | false => rw [(findPathN_none_iff cls n).mpr hcv] at hn; cases hn
        | true => rfl
      simp [findPathL, hn, containsDivL, hcn]
    | none =>
      have hcn : containsDivN cls n = false := (findPathN_none_iff cls n).mp hn
      cases hr : findPathL "div" cls rest with
      | some p =>
        have hcr : containsDivL cls rest = true := by
          cases hcv : containsDivL cls rest with
          | false => rw [(findPathL_none_iff cls rest).mpr hcv] at hr; cases hr
          | true => rfl
        simp [findPathL, hn, hr, containsDivL, hcn, hcr]
      | none =>
        simp [findPathL, hn, hr, containsDivL, hcn,
          (findPathL_none_iff cls rest).mp hr]
termination_by structural ns

end

/-- C4: loading an unreadable file terminates the process with exit
code 1; loading a parsed document terminates with exit code 1 exactly
when the document lacks a `div` with class `hits-catalog` or one with
class `product-catalog`; when both are present the load succeeds, does
not exit, and produces an editor state. -/
theorem reload_exit_spec :
    (reload_soup none).exitCode = some 1 ∧
    ∀ soup : List Node,
      ((reload_soup (some soup)).exitCode = some 1
        ↔ (containsDivL "hits-catalog" soup = false ∨
           containsDivL "product-catalog" soup = false)) ∧
      (containsDivL "hits-catalog" soup = true →
        containsDivL "product-catalog" soup = true →
        (reload_soup (some soup)).exitCode = none ∧
        (reload_soup (some soup)).state.isSome = true) := by
  refine ⟨rfl, fun soup => ?_⟩
  by_cases h1 : containsDivL "hits-catalog" soup = true
  · by_cases h2 : containsDivL "product-catalog" soup = true
    · obtain ⟨hp, hhp⟩ : ∃ p, findPathL "div" "hits-catalog" soup = some p := by
        cases hh : findPathL "div" "hits-catalog" soup with
        | some p => exact ⟨p, rfl⟩
        | none => rw [(findPathL_none_iff _ soup).mp hh] at h1; cases h1
      obtain ⟨cp, hcp⟩ : ∃ p, findPathL "div" "product-catalog" soup = some p := by
        cases hh : findPathL "div" "product-catalog" soup with
        | some p => exact ⟨p, rfl⟩
        | none => rw [(findPathL_none_iff _ soup).mp hh] at h2; cases h2
      constructor
      · simp [reload_soup, hhp, hcp, h1, h2]
      · intro _ _
        simp [reload_soup, hhp, hcp]
    · have h2' : containsDivL "product-catalog" soup = false := by simpa using h2
      have hcp : findPathL "div" "product-catalog" soup = none :=
        (findPathL_none_iff _ soup).mpr h2'
      constructor
      · cases hh : findPathL "div" "hits-catalog" soup <;>
          simp [reload_soup, hh, hcp, h2']
      · intro _ hc2
        rw [hc2] at h2'
        cases h2'
  · have h1' : containsDivL "hits-catalog" soup = false := by simpa using h1
    have hhp : findPathL "div" "hits-catalog" soup = none :=
      (findPathL_none_iff _ soup).mpr h1'
    constructor
    · cases hc : findPathL "div" "product-catalog" soup <;>
        simp [reload_soup, hhp, hc, h1']
    · intro hc1 _
      rw [hc1] at h1'
      cases h1'

/-- Witness for C4: `sampleDoc` holds both sections and loads with no
exit; dropping the catalog section makes the load exit with code 1. -/
theorem reload_exit_spec_witness :
    ((reload_soup (some sampleDoc)).exitCode = none ∧
      (reload_soup (some sampleDoc)).state.isSome = true) ∧
    (reload_soup (some [Node.elem "html" [] [sampleHits]])).exitCode = some 1 := by
  refine ⟨(reload_exit_spec.2 sampleDoc).2 (by decide) (by decide), ?_⟩
  exact ((reload_exit_spec.2 [Node.elem "html" [] [sampleHits]]).1).mpr
    (Or.inr (by decide))

/-!
### Saving and FTP transfer (C6, C8)
-/

theorem cwdSteps_ftp (w : FtpWorld) (parts : List String) :
    ∀ e ∈ (cwdSteps w parts).1, isFtpEv e = true := by
  induction parts with
  | nil => simp [cwdSteps]
  | cons part rest ih =>
    by_cases hp : part = ""
    · simpa [cwdSteps, hp] using ih
    · by_cases hc : w.cwdOk part = true
      · intro e he
        rw [cwdSteps] at he
        simp only [hp, if_false, hc, if_true] at he
        rcases List.mem_cons.mp he with rfl | he'
        · rfl
        · exact ih e he'
      · intro e he
        rw [cwdSteps] at he
        simp only [hp, if_false, hc] at he
        simp at he
        subst he
        rfl

theorem ftp_connect_ftp (cfg : FtpConfig) (w : FtpWorld) :
    ∀ e ∈ (ftp_connect cfg w).1, isFtpEv e = true := by
  rw [ftp_connect]
  by_cases hc : ftpConfigured cfg
  · simp only [hc, Bool.not_true, if_false]
    by_cases h1 : w.connectOk
    · by_cases h2 : w.loginOk
      · simp only [h1, h2, Bool.not_true, if_false]
        by_cases h3 : truthy cfg.remote_dir
        · simp only [h3, if_true]
          intro e he
          rcases List.mem_append.mp he with h | h
          · rcases List.mem_cons.mp h with rfl | h'
            · rfl
            · simp at h'
              subst h'
              rfl
          · exact cwdSteps_ftp w _ e h
        · simp only [h3, if_false]
          intro e he
          rcases List.mem_cons.mp he with rfl | h'
          · rfl
          · simp at h'
            subst h'
            rfl
      · simp only [h1, h2, Bool.not_true, Bool.not_false, if_false, if_true]
        intro e he
        rcases List.mem_cons.mp he with rfl | h'
        · rfl
        · simp at h'
          subst h'
          rfl
    · simp only [h1, Bool.not_false, if_true]
      intro e he
      simp at he
      subst he
      rfl
  · simp [hc]

theorem ftp_upload_ftp (cfg : FtpConfig) (w : FtpWorld) :
    ∀ e ∈ (ftp_upload cfg w).1, isFtpEv e = true := by
  rw [ftp_upload]
  by_cases hf : truthy cfg.remote_file
  · simp only [hf, Bool.not_true, if_false]
    cases hcon : ftp_connect cfg w with
    | mk evs ok =>
      have hevs : ∀ e ∈ evs, isFtpEv e = true := by
        intro e he
        exact ftp_connect_ftp cfg w e (by rw [hcon]; exact he)
      cases ok with
      | false =>
        simpa using hevs
      | true =>
        simp only [Bool.not_true, if_false]
        intro e he
        rcases List.mem_append.mp he with h | h
        · exact hevs e h
        · rcases List.mem_cons.mp h with rfl | h'
          · rfl
          · simp at h'
            subst h'
            rfl
  · simp [hf]

theorem ftp_download_ftp (cfg : FtpConfig) (w : FtpWorld) :
    ∀ e ∈ (ftp_download cfg w).1, isFtpEv e = true := by
  rw [ftp_download]
  by_cases hf : truthy cfg.remote_file
  · simp only [hf, Bool.not_true, if_false]
    cases hcon : ftp_connect cfg w with
    | mk evs ok =>
      have hevs : ∀ e ∈ evs, isFtpEv e = true := by
        intro e he
        exact ftp_connect_ftp cfg w e (by rw [hcon]; exact he)
      cases ok with
      | false => simpa using hevs
      | true =>
        simp only [Bool.not_true, if_false]
        intro e he
        rcases List.mem_append.mp he with h | h
        · exact hevs e h
        · rcases List.mem_cons.mp h with rfl | h'
          · rfl
          · simp at h'
            subst h'
            rfl
  · simp [hf]

theorem ftpEv_not_write_exit (e : Ev) (h : isFtpEv e = true) :
    isFileWriteEv e = false ∧ isExitEv e = false := by
  cases e <;> simp [isFtpEv, isFileWriteEv, isExitEv] at h ⊢

/-- C6: with remote synchronization configured, saving first writes the
whole serialized document to the local file — the write is the first
effect and the only write in the trace — then attempts the upload; an
upload failure adds an error dialog after the upload events, leaving
the completed write in place (nothing in the trace modifies the file
again) and never terminating the process. -/
theorem save_soup_spec (soup : List Node) (cfg : FtpConfig) (w : FtpWorld) :
    (save_soup soup cfg w).head? = some (Ev.fileWriteEv (serializeDoc soup)) ∧
    (save_soup soup cfg w).filter isFileWriteEv
      = [Ev.fileWriteEv (serializeDoc soup)] ∧
    (save_soup soup cfg w).filter isExitEv = [] ∧
    (ftpConfigured cfg = true →
      save_soup soup cfg w
        = Ev.fileWriteEv (serializeDoc soup)
            :: ((ftp_upload cfg w).1
              ++ (if (ftp_upload cfg w).2 then []
                  else [Ev.dialogEv "FTP upload error"]))) ∧
    (ftpConfigured cfg = true → (ftp_upload cfg w).2 = false →
      Ev.dialogEv "FTP upload error" ∈ save_soup soup cfg w) := by
  by_cases hc : ftpConfigured cfg = true
  · cases hup : ftp_upload cfg w with
    | mk evs ok =>
      have htrace : save_soup soup cfg w
          = Ev.fileWriteEv (serializeDoc soup)
              :: (evs ++ (if ok then [] else [Ev.dialogEv "FTP upload error"])) := by
        simp [save_soup, hc, hup]
      have hevs : ∀ e ∈ evs, isFtpEv e = true := by
        intro e he
        exact ftp_upload_ftp cfg w e (by rw [hup]; exact he)
      refine ⟨by rw [htrace]; rfl, ?_, ?_, ?_, ?_⟩
      · rw [htrace]
        simp only [List.filter_cons, List.filter_append]
        rw [show isFileWriteEv (Ev.fileWriteEv (serializeDoc soup)) = true from rfl]
        have h1 : evs.filter isFileWriteEv = [] := by
          rw [List.filter_eq_nil_iff]
          intro e he
          simp [(ftpEv_not_write_exit e (hevs e he)).1]
        have h2 : (if ok then ([] : List Ev)
            else [Ev.dialogEv "FTP upload error"]).filter isFileWriteEv = [] := by
          cases ok <;> simp [isFileWriteEv]
        simp [h1, h2]
      · rw [htrace]
        simp only [List.filter_cons, List.filter_append]
        rw [show isExitEv (Ev.fileWriteEv (serializeDoc soup)) = false from rfl]
        have h1 : evs.filter isExitEv = [] := by
          rw [List.filter_eq_nil_iff]
          intro e he
          simp [(ftpEv_not_write_exit e (hevs e he)).2]
        have h2 : (if ok then ([] : List Ev)
            else [Ev.dialogEv "FTP upload error"]).filter isExitEv = [] := by
          cases ok <;> simp [isExitEv]
        simp [h1, h2]
      · intro _
        rw [htrace]
      · intro _ hfail
        simp only at hfail
        rw [htrace, hfail]
        simp
  · have htrace : save_soup soup cfg w = [Ev.fileWriteEv (serializeDoc soup)] := by
      simp [save_soup, hc]
    refine ⟨by rw [htrace]; rfl, by rw [htrace]; rfl, by rw [htrace]; rfl,
      fun h => absurd h hc, fun h => absurd h hc⟩

/-- Witness for C6: saving `sampleDoc` with the sample configuration
in a world whose upload fails still writes the file first and reports
the failure with a dialog. -/
theorem save_soup_spec_witness :
    (save_soup sampleDoc sampleCfg storFailWorld).head?
      = some (Ev.fileWriteEv (serializeDoc sampleDoc)) ∧
    Ev.dialogEv "FTP upload error" ∈ save_soup sampleDoc sampleCfg storFailWorld := by
  have h := save_soup_spec sampleDoc sampleCfg storFailWorld
  exact ⟨h.1, h.2.2.2.2 (by decide) (by decide)⟩

theorem cwdSteps_cwd (w : FtpWorld) (parts : List String) :
    ∀ e ∈ (cwdSteps w parts).1, ∃ d, e = Ev.ftpCwdEv d := by
  induction parts with
  | nil => simp [cwdSteps]
  | cons part rest ih =>
    by_cases hp : part = ""
    · simpa [cwdSteps, hp] using ih
    · by_cases hc : w.cwdOk part = true
      · intro e he
        rw [cwdSteps] at he
        simp only [hp, if_false, hc, if_true] at he
        rcases List.mem_cons.mp he with rfl | he'
        · exact ⟨part, rfl⟩
        · exact ih e he'
      · intro e he
        rw [cwdSteps] at he
        simp only [hp, if_false, hc] at he
        simp at he
        subst he
        exact ⟨part, rfl⟩

theorem ftp_connect_trace (cfg : FtpConfig) (w : FtpWorld)
    (hc : ftpConfigured cfg = true) :
    (ftp_connect cfg w).1
      = Ev.ftpConnectEv (cfg.ftp_host.getD "")
          :: (if w.connectOk then
                Ev.ftpLoginEv (cfg.ftp_user.getD "")
                  :: (if w.loginOk then
                        (if truthy cfg.remote_dir then (cwdSteps w (dirParts cfg)).1
                         else [])
                      else [])
              else []) := by
  rw [ftp_connect]
  rcases hcw : cwdSteps w (dirParts cfg) with ⟨evs, ok⟩
  by_cases h1 : w.connectOk <;> by_cases h2 : w.loginOk <;>
    by_cases h3 : truthy cfg.remote_dir <;>
      simp [hc, h1, h2, h3, hcw]

theorem ftp_connect_filter_connect (cfg : FtpConfig) (w : FtpWorld)
    (hc : ftpConfigured cfg = true) :
    (ftp_connect cfg w).1.filter isConnectEv
      = [Ev.ftpConnectEv (cfg.ftp_host.getD "")] := by
  rw [ftp_connect_trace cfg w hc, List.filter_cons]
  rw [show isConnectEv (Ev.ftpConnectEv (cfg.ftp_host.getD "")) = true from rfl]
  have hrest : (if w.connectOk then
      Ev.ftpLoginEv (cfg.ftp_user.getD "")
        :: (if w.loginOk then
              (if truthy cfg.remote_dir then (cwdSteps w (dirParts cfg)).1 else [])
            else [])
      else ([] : List Ev)).filter isConnectEv = [] := by
    rw [List.filter_eq_nil_iff]
    intro e he
    by_cases h1 : w.connectOk <;> simp [h1] at he
    rcases he with rfl | he'
    · simp [isConnectEv]
    · by_cases h2 : w.loginOk <;> simp [h2] at he'
      by_cases h3 : truthy cfg.remote_dir <;> simp [h3] at he'
      obtain ⟨d, rfl⟩ := cwdSteps_cwd w (dirParts cfg) e he'
      simp [isConnectEv]
  simp [hrest]

/-- Counterexample to C8 as stated: with the full sample configuration
and a world in which login fails, the upload call establishes a
connection (the connect event occurs) but never closes it: no quit
event follows, because `_ftp_connect` raises out of the function before
any `try/finally` protects the connection. -/
theorem ftp_close_cx :
    (ftp_upload sampleCfg loginFailWorld).1
      = [Ev.ftpConnectEv "31.31.196.76", Ev.ftpLoginEv "u3275410"] ∧
    Ev.ftpConnectEv "31.31.196.76" ∈ (ftp_upload sampleCfg loginFailWorld).1 ∧
    Ev.ftpQuitEv ∉ (ftp_upload sampleCfg loginFailWorld).1 :=
  ⟨by decide, by decide, by decide⟩

theorem ftp_connect_unconfigured (cfg : FtpConfig) (w : FtpWorld)
    (h : ftpConfigured cfg = false) : ftp_connect cfg w = ([], false) := by
  rw [ftp_connect]
  simp [h]

theorem ftp_upload_trace (cfg : FtpConfig) (w : FtpWorld) :
    (ftp_upload cfg w).1
      = if truthy cfg.remote_file then
          (if (ftp_connect cfg w).2 then
            (ftp_connect cfg w).1
              ++ [Ev.ftpStorEv (cfg.remote_file.getD ""), Ev.ftpQuitEv]
          else (ftp_connect cfg w).1)
        else [] := by
  rw [ftp_upload]
  rcases hcon : ftp_connect cfg w with ⟨evs, ok⟩
  by_cases hf : truthy cfg.remote_file <;> cases ok <;> simp [hf, hcon]

theorem ftp_download_trace (cfg : FtpConfig) (w : FtpWorld) :
    (ftp_download cfg w).1
      = if truthy cfg.remote_file then
          (if (ftp_connect cfg w).2 then
            (ftp_connect cfg w).1
              ++ [Ev.ftpRetrEv (cfg.remote_file.getD ""), Ev.ftpQuitEv]
          else (ftp_connect cfg w).1)
        else [] := by
  rw [ftp_download]
  rcases hcon : ftp_connect cfg w with ⟨evs, ok⟩
  by_cases hf : truthy cfg.remote_file <;> cases ok <;> simp [hf, hcon]

theorem trace_filter_connect (cfg : FtpConfig) (w : FtpWorld) (tail : List Ev)
    (htail : tail.filter isConnectEv = []) :
    (((ftp_connect cfg w).1 ++ tail).filter isConnectEv = []
      ∨ ((ftp_connect cfg w).1 ++ tail).filter isConnectEv
          = [Ev.ftpConnectEv (cfg.ftp_host.getD "")]) := by
  by_cases hc : ftpConfigured cfg = true
  · refine Or.inr ?_
    rw [List.filter_append, ftp_connect_filter_connect cfg w hc, htail]
    simp
  · have h0 : ftp_connect cfg w = ([], false) :=
      ftp_connect_unconfigured cfg w (by simpa using hc)
    rw [h0]
    simpa using Or.inl htail

/-- C8 (amended): each upload or download call uses a fresh connection
— its trace contains at most one connect event, which is the first
event whenever the call reaches the network; when the connect phase
(connect, login, directory changes) succeeds, the connection is closed
(quit) whether or not the transfer itself succeeds; a connect-phase
failure propagates without a close, but every failure is still
reported as an error dialog by the callers, which never terminate the
process. -/
theorem ftp_connection_spec (cfg : FtpConfig) (w : FtpWorld) (soup : List Node) :
    ((ftp_upload cfg w).1.filter isConnectEv = []
      ∨ (ftp_upload cfg w).1.filter isConnectEv
          = [Ev.ftpConnectEv (cfg.ftp_host.getD "")]) ∧
    ((ftp_download cfg w).1.filter isConnectEv = []
      ∨ (ftp_download cfg w).1.filter isConnectEv
          = [Ev.ftpConnectEv (cfg.ftp_host.getD "")]) ∧
    (truthy cfg.remote_file = true → ftpConfigured cfg = true →
      (ftp_upload cfg w).1.head? = some (Ev.ftpConnectEv (cfg.ftp_host.getD "")) ∧
      (ftp_download cfg w).1.head? = some (Ev.ftpConnectEv (cfg.ftp_host.getD ""))) ∧
    (truthy cfg.remote_file = true → (ftp_connect cfg w).2 = true →
      Ev.ftpQuitEv ∈ (ftp_upload cfg w).1 ∧ Ev.ftpQuitEv ∈ (ftp_download cfg w).1) ∧
    ((ftp_download cfg w).2 = false →
      Ev.dialogEv "FTP download error" ∈ init_download cfg w) ∧
    (init_download cfg w).filter isExitEv = [] ∧
    (save_soup soup cfg w).filter isExitEv = [] := by
  refine ⟨?_, ?_, ?_, ?_, ?_, ?_, ?_⟩
  · rw [ftp_upload_trace]
    by_cases hf : truthy cfg.remote_file
    · by_cases hok : (ftp_connect cfg w).2 = true
      · simp only [hf, if_true, hok]
        exact trace_filter_connect cfg w _ (by simp [isConnectEv])
      · simp only [hf, if_true, hok, if_false]
        simpa using trace_filter_connect cfg w [] rfl
    · simp [hf]
  · rw [ftp_download_trace]
    by_cases hf : truthy cfg.remote_file
    · by_cases hok : (ftp_connect cfg w).2 = true
      · simp only [hf, if_true, hok]
        exact trace_filter_connect cfg w _ (by simp [isConnectEv])
      · simp only [hf, if_true, hok, if_false]
        simpa using trace_filter_connect cfg w [] rfl
    · simp [hf]
  · intro hf hc
    have hct := ftp_connect_trace cfg w hc
    constructor
    · rw [ftp_upload_trace]
      by_cases hok : (ftp_connect cfg w).2 = true <;>
        simp [hf, hok, hct]
    · rw [ftp_download_trace]
      by_cases hok : (ftp_connect cfg w).2 = true <;>
        simp [hf, hok, hct]
  · intro hf hok
    constructor
    · rw [ftp_upload_trace]
      simp [hf, hok]
    · rw [ftp_download_trace]
      simp [hf, hok]
  · intro hfail
    rw [init_download]
    rcases hd : ftp_download cfg w with ⟨evs, ok⟩
    rw [hd] at hfail
    simp only at hfail
    subst hfail
    simp
  · rw [init_download]
    rcases hd : ftp_download cfg w with ⟨evs, ok⟩
    have hevs : ∀ e ∈ evs, isFtpEv e = true := by
      intro e he
      exact ftp_download_ftp cfg w e (by rw [hd]; exact he)
    simp only
    rw [List.filter_append, List.filter_eq_nil_iff.mpr
      (fun e he => by simp [(ftpEv_not_write_exit e (hevs e he)).2])]
    cases ok <;> simp [isExitEv]
  · by_cases hc : ftpConfigured cfg = true
    · rcases hup : ftp_upload cfg w with ⟨evs, ok⟩
      have hevs : ∀ e ∈ evs, isFtpEv e = true := by
        intro e he
        exact ftp_upload_ftp cfg w e (by rw [hup]; exact he)
      have htrace : save_soup soup cfg w
          = Ev.fileWriteEv (serializeDoc soup)
              :: (evs ++ (if ok then [] else [Ev.dialogEv "FTP upload error"])) := by
        simp [save_soup, hc, hup]
      rw [htrace, List.filter_cons]
      rw [show isExitEv (Ev.fileWriteEv (serializeDoc soup)) = false from rfl]
      rw [List.filter_append, List.filter_eq_nil_iff.mpr
        (fun e he => by simp [(ftpEv_not_write_exit e (hevs e he)).2])]
      cases ok <;> simp [isExitEv]
    · have htrace : save_soup soup cfg w = [Ev.fileWriteEv (serializeDoc soup)] := by
        simp [save_soup, hc]
      rw [htrace]
      rfl

/-- Witness for C8: with the sample configuration and a world in which
only the download transfer fails, the connect phase succeeds, so both
calls close their connection, and the failed download is reported with
an error dialog. -/
theorem ftp_connection_spec_witness :
    (Ev.ftpQuitEv ∈ (ftp_upload sampleCfg retrFailWorld).1 ∧
      Ev.ftpQuitEv ∈ (ftp_download sampleCfg retrFailWorld).1) ∧
    Ev.dialogEv "FTP download error" ∈ init_download sampleCfg retrFailWorld ∧
    (ftp_upload sampleCfg retrFailWorld).1.head?
      = some (Ev.ftpConnectEv (sampleCfg.ftp_host.getD "")) := by
  have h := ftp_connection_spec sampleCfg retrFailWorld sampleDoc
  exact ⟨h.2.2.2.1 (by decide) (by decide), h.2.2.2.2.1 (by decide),
    (h.2.2.1 (by decide) (by decide)).1⟩

/-!
### Serialization round trip (C7)
-/

theorem parseMany_toksL (ds : List Node) (rest : List Tok) (fuel : Nat)
    (hrest : rest = [] ∨ ∃ t r, rest = Tok.closeTag t :: r)
    (hfuel : (toksL ds).length + rest.length + 1 ≤ fuel) :
    parseMany fuel (toksL ds ++ rest) = some (ds, rest) := by
  match ds with
  | [] =>
    rcases hrest with rfl | ⟨t, r, rfl⟩
    · cases fuel with
      | zero => omega
      | succ f => simp [toksL, parseMany]
    · cases fuel with
      | zero => omega
      | succ f => simp [toksL, parseMany]
  | Node.text s :: ds' =>
    cases fuel with
    | zero =>
      exfalso
      omega
    | succ f =>
      have hsplit : toksL (Node.text s :: ds') ++ rest
          = Tok.txt s :: (toksL ds' ++ rest) := by
        simp [toksL, toksN]
      have hlen : (toksL (Node.text s :: ds')).length = (toksL ds').length + 1 := by
        simp [toksL, toksN]
      rw [hsplit, parseMany,
        parseMany_toksL ds' rest f hrest (by omega)]
  | Node.elem t a cs :: ds' =>
    cases fuel with
    | zero =>
      exfalso
      omega
    | succ f =>
      have hsplit : toksL (Node.elem t a cs :: ds') ++ rest
          = Tok.openTag t a
              :: (toksL cs ++ (Tok.closeTag t :: (toksL ds' ++ rest))) := by
        simp [toksL, toksN]
      have hlen : (toksL (Node.elem t a cs :: ds')).length
          = (toksL cs).length + (toksL ds').length + 2 := by
        simp [toksL, toksN]
        omega
      rw [hsplit, parseMany,
        parseMany_toksL cs (Tok.closeTag t :: (toksL ds' ++ rest)) f
          (Or.inr ⟨t, toksL ds' ++ rest, rfl⟩) (by simp; omega)]
      dsimp only
      rw [if_pos rfl, parseMany_toksL ds' rest f hrest (by omega)]
termination_by sizeOf ds
decreasing_by
  all_goals simp_wf
  all_goals omega

/-- C7: a load followed immediately by a save with no edits writes the
full serialization of the loaded tree as its first and only file
write, and that output is semantically identical to the loaded input:
its token stream re-parses to exactly the document tree that was
loaded. -/
theorem load_save_roundtrip (file : Option (List Node)) (st : EdState)
    (cfg : FtpConfig) (w : FtpWorld)
    (h : (reload_soup file).state = some st) :
    file = some st.soup ∧
    (save_soup st.soup cfg w).head?
      = some (Ev.fileWriteEv (serializeDoc st.soup)) ∧
    serializeDoc st.soup = String.join ((toksL st.soup).map renderTok) ∧
    parseDocument (toksL st.soup) = some st.soup := by
  have hfile : file = some st.soup := by
    cases file with
    | none => simp [reload_soup] at h
    | some soup =>
      cases hh : findPathL "div" "hits-catalog" soup with
      | none => simp [reload_soup, hh] at h
      | some hp =>
        cases hc : findPathL "div" "product-catalog" soup with
        | none => simp [reload_soup, hh, hc] at h
        | some cp =>
          simp only [reload_soup, hh, hc, Option.some_inj] at h
          rw [← h]
  refine ⟨hfile, ?_, rfl, ?_⟩
  · rcases hup : ftp_upload cfg w with ⟨evs, ok⟩
    by_cases hcf : ftpConfigured cfg = true <;>
      simp [save_soup, hcf, hup]
  · have hp := parseMany_toksL st.soup [] ((toksL st.soup).length + 1)
      (Or.inl rfl) (by simp)
    rw [List.append_nil] at hp
    rw [parseDocument, hp]

/-- Witness for C7: loading `sampleDoc` and saving writes its full
serialization, whose token stream re-parses to exactly `sampleDoc`. -/
theorem load_save_roundtrip_witness :
    some sampleDoc
        = some (EdState.soup { soup := sampleDoc, hitsPath := [0, 0, 0]
                             , catPath := [0, 0, 1] }) ∧
    parseDocument (toksL sampleDoc) = some sampleDoc := by
  have h := load_save_roundtrip (some sampleDoc)
    { soup := sampleDoc, hitsPath := [0, 0, 0], catPath := [0, 0, 1] }
    sampleCfg storFailWorld rfl
  exact ⟨h.1, h.2.2.2⟩

/-!
### The two-sections invariant (C10)
-/

theorem modifyNthNode_getElem_ne (f : Node → Node) (ns : List Node) (i j : Nat)
    (h : i ≠ j) : (modifyNthNode f ns j)[i]? = ns[i]? := by
  induction ns generalizing i j with
  | nil => simp [modifyNthNode]
  | cons c cs ih =>
    cases j with
    | zero =>
      cases i with
      | zero => exact absurd rfl h
      | succ i' => simp [modifyNthNode]
    | succ j' =>
      cases i with
      | zero => simp [modifyNthNode]
      | succ i' =>
        simp only [modifyNthNode, List.getElem?_cons_succ]
        exact ih i' j' (by omega)

theorem modifyNthNode_getElem_eq (f : Node → Node) (ns : List Node) (j : Nat) (x : Node)
    (h : ns[j]? = some x) : (modifyNthNode f ns j)[j]? = some (f x) := by
  induction ns generalizing j with
  | nil => simp at h
  | cons c cs ih =>
    cases j with
    | zero =>
      simp only [List.getElem?_cons_zero, Option.some_inj] at h
      subst h
      simp [modifyNthNode]
    | succ j' =>
      simp only [List.getElem?_cons_succ] at h
      simp only [modifyNthNode, List.getElem?_cons_succ]
      exact ih j' h

theorem getAtN_updateAtN_indep (f : Node → Node) (p q : Path) (n x : Node)
    (hind : pathsIndep p q = true) (hg : getAtN p n = some x) :
    getAtN p (updateAtN f q n) = some x := by
  induction p generalizing q n with
  | nil => simp [pathsIndep] at hind
  | cons i p' ih =>
    cases q with
    | nil => simp [pathsIndep] at hind
    | cons j q' =>
      cases n with
      | text s => simp [getAtN] at hg
      | elem t a cs =>
        by_cases hij : i = j
        · subst hij
          have hind' : pathsIndep p' q' = true := by simpa [pathsIndep] using hind
          cases hci : cs[i]? with
          | none => simp [getAtN, hci] at hg
          | some c =>
            simp only [getAtN, hci] at hg
            rw [updateAtN]
            simp only [getAtN, modifyNthNode_getElem_eq _ cs i c hci]
            exact ih q' c hind' hg
        · rw [updateAtN]
          simp only [getAtN, modifyNthNode_getElem_ne _ cs i j hij]
          simpa [getAtN] using hg

theorem getAtL_updateAtL_indep (f : Node → Node) (p q : Path) (ns : List Node)
    (x : Node) (hind : pathsIndep p q = true) (hg : getAtL p ns = some x) :
    getAtL p (updateAtL f q ns) = some x := by
  cases p with
  | nil => simp [getAtL] at hg
  | cons i p' =>
    cases q with
    | nil => simp [pathsIndep] at hind
    | cons j q' =>
      rw [updateAtL]
      by_cases hij : i = j
      · subst hij
        have hind' : pathsIndep p' q' = true := by simpa [pathsIndep] using hind
        cases hci : ns[i]? with
        | none => simp [getAtL, hci] at hg
        | some c =>
          simp only [getAtL, hci] at hg
          simp only [getAtL, modifyNthNode_getElem_eq _ ns i c hci]
          exact getAtN_updateAtN_indep f p' q' c x hind' hg
      · simp only [getAtL, modifyNthNode_getElem_ne _ ns i j hij]
        simpa [getAtL] using hg

theorem getAtN_updateAtN_self (f : Node → Node) (p : Path) (n x : Node)
    (hg : getAtN p n = some x) : getAtN p (updateAtN f p n) = some (f x) := by
  induction p generalizing n with
  | nil =>
    simp only [getAtN, Option.some_inj] at hg
    subst hg
    simp [getAtN, updateAtN]
  | cons i p' ih =>
    cases n with
    | text s => simp [getAtN] at hg
    | elem t a cs =>
      cases hci : cs[i]? with
      | none => simp [getAtN, hci] at hg
      | some c =>
        simp only [getAtN, hci] at hg
        rw [updateAtN]
        simp only [getAtN, modifyNthNode_getElem_eq _ cs i c hci]
        exact ih c hg

theorem getAtL_updateAtL_self (f : Node → Node) (p : Path) (ns : List Node)
    (x : Node) (hg : getAtL p ns = some x) :
    getAtL p (updateAtL f p ns) = some (f x) := by
  cases p with
  | nil => simp [getAtL] at hg
  | cons i p' =>
    cases hci : ns[i]? with
    | none => simp [getAtL, hci] at hg
    | some c =>
      simp only [getAtL, hci] at hg
      rw [updateAtL]
      simp only [getAtL, modifyNthNode_getElem_eq _ ns i c hci]
      exact getAtN_updateAtN_self f p' c x hg

theorem containsDivL_of_mem (cls : String) (c : Node) (ns : List Node)
    (hm : c ∈ ns) (hc : containsDivN cls c = true) : containsDivL cls ns = true := by
  induction ns with
  | nil => simp at hm
  | cons n rest ih =>
    rcases List.mem_cons.mp hm with rfl | hm'
    · simp [containsDivL, hc]
    · simp [containsDivL, ih hm']

theorem containsDivN_of_getAtN (cls : String) (p : Path) (n x : Node)
    (hg : getAtN p n = some x) (hm : matchesTagClass "div" cls x = true) :
    containsDivN cls n = true := by
  induction p generalizing n with
  | nil =>
    simp only [getAtN, Option.some_inj] at hg
    subst hg
    cases n with
    | text s => simp [matchesTagClass] at hm
    | elem t a cs => simp [containsDivN, hm]
  | cons i p' ih =>
    cases n with
    | text s => simp [getAtN] at hg
    | elem t a cs =>
      cases hci : cs[i]? with
      | none => simp [getAtN, hci] at hg
      | some c =>
        simp only [getAtN, hci] at hg
        have hcN : containsDivN cls c = true := ih c hg
        have hmem : c ∈ cs := List.getElem?_mem hci
        simp [containsDivN, containsDivL_of_mem cls c cs hmem hcN]

theorem containsDivL_of_getAtL (cls : String) (p : Path) (ns : List Node) (x : Node)
    (hg : getAtL p ns = some x) (hm : matchesTagClass "div" cls x = true) :
    containsDivL cls ns = true := by
  cases p with
  | nil => simp [getAtL] at hg
  | cons i p' =>
    cases hci : ns[i]? with
    | none => simp [getAtL, hci] at hg
    | some c =>
      simp only [getAtL, hci] at hg
      exact containsDivL_of_mem cls c ns (List.getElem?_mem hci)
        (containsDivN_of_getAtN cls p' c x hg hm)

theorem matches_add_item (cls n p i : String) (d : List String) (c : Node) :
    matchesTagClass "div" cls (add_item c n p i d) = matchesTagClass "div" cls c := by
  cases c <;> rfl

theorem matches_remove (cls : String) (c : Node) (sel : Option Int) (conf : Bool) :
    matchesTagClass "div" cls ((remove_selected c sel conf).container)
      = matchesTagClass "div" cls c := by
  cases sel with
  | none => rfl
  | some idx =>
    simp only [remove_selected]
    by_cases hcond : idx < 0 ∨ ((directItems c).length : Int) ≤ idx
    · rw [if_pos hcond]
    · rw [if_neg hcond]
      cases conf with
      | false => rfl
      | true => cases c <;> rfl

mutual

theorem getAtN_findPathN (tag cls : String) (n : Node) (p : Path)
    (h : findPathN tag cls n = some p) :
    ∃ x, getAtN p n = some x ∧ matchesTagClass tag cls x = true := by
  cases n with
  | text s => simp [findPathN] at h
  | elem t a cs =>
    by_cases hm : matchesTagClass tag cls (Node.elem t a cs) = true
    · rw [findPathN] at h
      simp only [hm, if_true, Option.some_inj] at h
      subst h
      exact ⟨Node.elem t a cs, rfl, hm⟩
    · have hm' : matchesTagClass tag cls (Node.elem t a cs) = false := by
        simpa using hm
      rw [findPathN] at h
      simp only [hm', Bool.false_eq_true, if_false] at h
      obtain ⟨hne, x, hx, hmx⟩ := getAtL_findPathL tag cls cs p h
      refine ⟨x, ?_, hmx⟩
      cases p with
      | nil => exact absurd rfl hne
      | cons i p' => exact hx
termination_by structural n

theorem getAtL_findPathL (tag cls : String) (ns : List Node) (p : Path)
    (h : findPathL tag cls ns = some p) :
    p ≠ [] ∧ ∃ x, getAtL p ns = some x ∧ matchesTagClass tag cls x = true := by
  cases ns with
  | nil => simp [findPathL] at h
  | cons n rest =>
    cases hn : findPathN tag cls n with
    | some q =>
      rw [findPathL] at h
      simp only [hn, Option.some_inj] at h
      subst h
      obtain ⟨x, hx, hmx⟩ := getAtN_findPathN tag cls n q hn
      exact ⟨by simp, x, by simpa [getAtL] using hx, hmx⟩
    | none =>
      rw [findPathL] at h
      simp only [hn] at h
      cases hr : findPathL tag cls rest with
      | none => rw [hr] at h; cases h
      | some q =>
        rw [hr] at h
        simp only [Option.some_inj] at h
        obtain ⟨hqne, x, hx, hmx⟩ := getAtL_findPathL tag cls rest q hr
        cases q with
        | nil => exact absurd rfl hqne
        | cons j q' =>
          subst h
          refine ⟨by simp [bumpHead], x, ?_, hmx⟩
          simp only [getAtL, List.getElem?_cons_succ] at hx ⊢
          simpa [bumpHead, getAtL] using hx
termination_by structural ns

end

theorem pathsIndep_symm (p q : Path) : pathsIndep p q = pathsIndep q p := by
  induction p generalizing q with
  | nil => cases q <;> simp [pathsIndep]
  | cons i p' ih =>
    cases q with
    | nil => simp [pathsIndep]
    | cons j q' =>
      by_cases hij : i = j
      · subst hij
        simp [pathsIndep, ih]
      · simp [pathsIndep, hij, Ne.symm hij]

theorem reload_state_paths (soup : List Node) (st : EdState)
    (h : (reload_soup (some soup)).state = some st) :
    st.soup = soup ∧
    findPathL "div" "hits-catalog" soup = some st.hitsPath ∧
    findPathL "div" "product-catalog" soup = some st.catPath := by
  cases hh : findPathL "div" "hits-catalog" soup with
  | none => simp [reload_soup, hh] at h
  | some hp =>
    cases hc : findPathL "div" "product-catalog" soup with
    | none => simp [reload_soup, hh, hc] at h
    | some cp =>
      simp only [reload_soup, hh, hc, Option.some_inj] at h
      subst h
      exact ⟨rfl, rfl, rfl⟩

theorem goodState_load (doc : List Node) (st : EdState)
    (h : (reload_soup (some doc)).state = some st)
    (hind : pathsIndep st.hitsPath st.catPath = true) : GoodState st := by
  obtain ⟨hsoup, hh, hc⟩ := reload_state_paths doc st h
  obtain ⟨-, x, hx, hmx⟩ := getAtL_findPathL _ _ _ _ hh
  obtain ⟨-, y, hy, hmy⟩ := getAtL_findPathL _ _ _ _ hc
  exact ⟨hind, ⟨x, by rw [hsoup]; exact hx, hmx⟩, ⟨y, by rw [hsoup]; exact hy, hmy⟩⟩

theorem goodState_add (st : EdState) (h : GoodState st)
    (sec n p i : String) (d : List String) :
    GoodState (add_item_doc st sec n p i d) := by
  obtain ⟨hind, ⟨x, hx, hmx⟩, ⟨y, hy, hmy⟩⟩ := h
  rw [add_item_doc]
  by_cases hsec : (sec == "hits") = true
  · simp only [hsec, if_true]
    refine ⟨hind, ⟨add_item x n p i d, ?_, ?_⟩, ⟨y, ?_, hmy⟩⟩
    · exact getAtL_updateAtL_self _ _ _ _ hx
    · rw [matches_add_item]
      exact hmx
    · exact getAtL_updateAtL_indep _ _ _ _ _
        (by rw [pathsIndep_symm]; exact hind) hy
  · simp only [hsec, Bool.false_eq_true, if_false]
    refine ⟨hind, ⟨x, ?_, hmx⟩, ⟨add_item y n p i d, ?_, ?_⟩⟩
    · exact getAtL_updateAtL_indep _ _ _ _ _ hind hx
    · exact getAtL_updateAtL_self _ _ _ _ hy
    · rw [matches_add_item]
      exact hmy

theorem goodState_remove (st : EdState) (h : GoodState st)
    (sec : String) (sel : Option Int) (conf : Bool) :
    GoodState (remove_doc st sec sel conf) := by
  obtain ⟨hind, ⟨x, hx, hmx⟩, ⟨y, hy, hmy⟩⟩ := h
  rw [remove_doc]
  by_cases hsec : (sec == "hits") = true
  · simp only [hsec, if_true]
    refine ⟨hind, ⟨(remove_selected x sel conf).container, ?_, ?_⟩, ⟨y, ?_, hmy⟩⟩
    · exact getAtL_updateAtL_self _ _ _ _ hx
    · rw [matches_remove]
      exact hmx
    · exact getAtL_updateAtL_indep _ _ _ _ _
        (by rw [pathsIndep_symm]; exact hind) hy
  · simp only [hsec, Bool.false_eq_true, if_false]
    refine ⟨hind, ⟨x, ?_, hmx⟩, ⟨(remove_selected y sel conf).container, ?_, ?_⟩⟩
    · exact getAtL_updateAtL_indep _ _ _ _ _ hind hx
    · exact getAtL_updateAtL_self _ _ _ _ hy
    · rw [matches_remove]
      exact hmy

theorem goodState_present (st : EdState) (h : GoodState st) :
    containsDivL "hits-catalog" st.soup = true ∧
    containsDivL "product-catalog" st.soup = true := by
  obtain ⟨-, ⟨x, hx, hmx⟩, ⟨y, hy, hmy⟩⟩ := h
  exact ⟨containsDivL_of_getAtL _ _ _ _ hx hmx,
    containsDivL_of_getAtL _ _ _ _ hy hmy⟩

/-- Counterexample to C10 as stated: `nestedDoc` loads successfully —
its catalog container is a `product-item` direct child of the hits
container — and removing index 0 from the hits section detaches the
catalog container with it, leaving a document with no
`div.product-catalog` at all. -/
theorem sections_invariant_cx :
    (reload_soup (some nestedDoc)).state
      = some { soup := nestedDoc, hitsPath := [0, 0], catPath := [0, 0, 0] } ∧
    containsDivL "product-catalog" nestedDoc = true ∧
    containsDivL "product-catalog"
      ((remove_doc { soup := nestedDoc, hitsPath := [0, 0], catPath := [0, 0, 0] }
        "hits" (some 0) true).soup) = false :=
  ⟨rfl, by decide, by decide⟩

/-- C10 (amended): after a successful load whose two container
references land in disjoint subtrees — neither container inside the
other — every reachable editor state still contains both section
containers: add only appends inside a container and remove only
detaches a direct item-child of a container, so both marker classes
remain present in the document tree. -/
theorem sections_invariant (st : EdState) (h : ReachableDisjoint st) :
    containsDivL "hits-catalog" st.soup = true ∧
    containsDivL "product-catalog" st.soup = true := by
  have hg : GoodState st := by
    induction h with
    | load doc st h hind => exact goodState_load doc st h hind
    | add st sec n p i d _ ih => exact goodState_add st ih sec n p i d
    | remove st sec sel conf _ ih => exact goodState_remove st ih sec sel conf
  exact goodState_present st hg

/-- Witness for C10: the state reached from `sampleDoc` by one add to
the hits section is reachable with disjoint container paths, and both
sections are still present in its document. -/
theorem sections_invariant_witness :
    containsDivL "hits-catalog"
      (add_item_doc { soup := sampleDoc, hitsPath := [0, 0, 0], catPath := [0, 0, 1] }
        "hits" "Combo" "299 ₽" "img/combo.jpg" ["Bun", "Patty"]).soup = true ∧
    containsDivL "product-catalog"
      (add_item_doc { soup := sampleDoc, hitsPath := [0, 0, 0], catPath := [0, 0, 1] }
        "hits" "Combo" "299 ₽" "img/combo.jpg" ["Bun", "Patty"]).soup = true :=
  sections_invariant _
    (ReachableDisjoint.add _ "hits" "Combo" "299 ₽" "img/combo.jpg" ["Bun", "Patty"]
      (ReachableDisjoint.load sampleDoc _ rfl (by decide)))

end BkboxEditor
